import Mathlib

/-
Verification of the InlineCache subsystem of the persistent key-value store
(src/include/inline_cache.h). The cache is a sharded map from `int` keys to
`std::string` values with a soft byte budget and three eviction policies
(LRU, FIFO, Random).

Shallow embedding conventions:
* The mutable `InlineCache` object becomes explicit state passing on
  `CacheState`; every member function becomes a pure function
  `Config → args → CacheState → result × CacheState` (or just `CacheState`).
* All claims are about single-threaded call sequences, so locks
  (`bucket.mtx`, `lruMutex_`) are no-ops and are not modelled.
* `std::chrono::steady_clock::now()` is modelled by a logical clock stored in
  the state: each call reads the current clock value and advances it by one
  (steady_clock is monotone; successive calls are modelled as strictly
  increasing readings).
* `std::mt19937 rng_` together with `std::uniform_int_distribution` is
  modelled by an oracle stream `Config.rng : Nat → Nat` and a cursor
  `CacheState.rngIdx`: the n-th draw over a range of size `r` yields
  `rng n % r`. Theorems about the Random policy quantify over the oracle.
* `size_t` counters (`size_entries`, `bytes_estimated`, `hits`, `misses`,
  `evictions`, `fifoCounter_`) are modelled as `Nat`. In every modelled
  execution the counters stay far below 2^64 and every subtraction the code
  performs (`removeEntry`, `adjustBytesOnUpdate`) subtracts an amount that is
  accounted inside the counter, so no wraparound can occur and no modular
  reduction is shown.
* `sizeof(Entry)` is a platform constant; it is carried as `Config.entrySize`
  and theorems quantify over it.
* The `lru_iterator` stored in each entry is a stable reference to that key's
  node in the global `lruList_`. Since every live key occurs exactly once in
  the list (proved below as the key-uniqueness invariant), the iterator is
  modelled by the key itself, and iterator erasure/moving becomes
  `List.erase` by key.
-/

namespace InlineCache

/-- Eviction policy, `enum class Policy { LRU, FIFO, Random }`
(inline_cache.h line 33). -/
inductive Policy where
  | LRU : Policy
  | FIFO : Policy
  | Random : Policy
deriving DecidableEq

/-- Statistics register, `struct Stats` (inline_cache.h lines 35-41). -/
structure Stats where
  size_entries : Nat := 0
  bytes_estimated : Nat := 0
  hits : Nat := 0
  misses : Nat := 0
  evictions : Nat := 0
deriving DecidableEq

/-- A cache entry, `struct Entry` (inline_cache.h lines 151-157).
The `lru_iterator` field is modelled by the key itself (see file header). -/
structure Entry where
  key : Int
  value : String
  timestamp : Nat
  fifo_order : Nat
deriving DecidableEq

/-- Construction-time configuration of the cache: policy, byte budget and
bucket count (constructor, inline_cache.h lines 44-45), plus the platform
constant `sizeof(Entry)` and the random-engine oracle (see file header). -/
structure Config where
  policy : Policy
  maxBytes : Nat
  bucketCount : Nat
  entrySize : Nat
  rng : Nat → Nat

/-- The mutable state of an `InlineCache` object: the bucket table
(`buckets_`, each bucket a list of entries with the most recently pushed
entry at the head, matching `push_front`), the global recency list
(`lruList_`, most recent at the head), the FIFO counter (`fifoCounter_`),
the logical clock, the random-draw cursor, and the statistics. -/
structure CacheState where
  buckets : List (List Entry)
  lruList : List Int
  fifoCounter : Nat
  clock : Nat
  rngIdx : Nat
  stats : Stats
deriving DecidableEq

/-- Freshly constructed cache (inline_cache.h lines 44-45): `bucketCount`
empty buckets, empty recency list, all counters zero. -/
def mkCache (cfg : Config) : CacheState :=
  { buckets := List.replicate cfg.bucketCount []
    lruList := []
    fifoCounter := 0
    clock := 0
    rngIdx := 0
    stats := {} }

/-- `bucketFor` (inline_cache.h line 173):
`buckets_[static_cast<size_t>(key) % buckets_.size()]`. The cast of the
signed key to `size_t` is reduction modulo 2^64. -/
def bucketFor (cfg : Config) (key : Int) : Nat :=
  (key % (2 ^ 64 : Int)).toNat % cfg.bucketCount

/-- The bucket a key hashes to (out-of-range index yields the empty list,
which never happens when `bucketCount > 0`). -/
def bucketOf (cfg : Config) (s : CacheState) (key : Int) : List Entry :=
  s.buckets.getD (bucketFor cfg key) []

/-- The linear scan `for (it = bucket.entries.begin(); ...) if (it->key == key)`
used by `get`, `update_or_insert`, `insert_if_absent`, `update`, `erase`:
returns the first entry with the given key. -/
def findInBucket (key : Int) : List Entry → Option Entry
  | [] => none
  | e :: rest => if e.key = key then some e else findInBucket key rest

/-- In-place value replacement of the first entry with the given key, as done
by the found-branches of `update_or_insert` and `update`
(`it->value = value; it->timestamp = now();`). -/
def replaceInBucket (key : Int) (v : String) (ts : Nat) : List Entry → List Entry
  | [] => []
  | e :: rest =>
    if e.key = key then { e with value := v, timestamp := ts } :: rest
    else e :: replaceInBucket key v ts rest

/-- Removal of the first entry with the given key from a bucket
(`bucket.entries.erase(it)` in `removeEntry`). -/
def removeFromBucket (key : Int) : List Entry → List Entry
  | [] => []
  | e :: rest => if e.key = key then rest else e :: removeFromBucket key rest

/-- `touchLRU` (inline_cache.h lines 177-185): if the key's node is not
already at the front of `lruList_`, unlink it and reinsert it at the front.
The iterator is modelled by the key (see file header). -/
def touchLRU (key : Int) (s : CacheState) : CacheState :=
  if s.lruList.head? = some key then s
  else { s with lruList := key :: s.lruList.erase key }

/-- `adjustBytesOnUpdate` (inline_cache.h lines 187-190): adjust
`bytes_estimated` by the length delta of the value. -/
def adjustBytesOnUpdate (oldLen newLen bytes : Nat) : Nat :=
  if oldLen < newLen then bytes + (newLen - oldLen) else bytes - (oldLen - newLen)

/-- `removeEntry` (inline_cache.h lines 192-200): unlink the key from
`lruList_`, subtract `sizeof(Entry) + value.size()` from the byte estimate,
decrement the entry count, and remove the entry from its bucket. -/
def removeEntry (cfg : Config) (e : Entry) (s : CacheState) : CacheState :=
  let bi := bucketFor cfg e.key
  { s with
    buckets := s.buckets.set bi (removeFromBucket e.key (s.buckets.getD bi []))
    lruList := s.lruList.erase e.key
    stats := { s.stats with
      bytes_estimated := s.stats.bytes_estimated - (cfg.entrySize + e.value.length)
      size_entries := s.stats.size_entries - 1 } }

/-- `erase` (inline_cache.h lines 132-142): scan the key's bucket; if found,
remove the entry and return true, else return false. -/
def erase (cfg : Config) (key : Int) (s : CacheState) : Bool × CacheState :=
  match findInBucket key (bucketOf cfg s key) with
  | some e => (true, removeEntry cfg e s)
  | none => (false, s)

/-- `evictLRU` (inline_cache.h lines 214-222): the victim is
`lruList_.empty() ? -1 : lruList_.back()`; if the victim is `-1` the function
returns without evicting, otherwise it calls `erase(victimKey)`. -/
def evictLRU (cfg : Config) (s : CacheState) : CacheState :=
  let victimKey : Int :=
    match s.lruList.getLast? with
    | none => -1
    | some k => k
  if victimKey = -1 then s else (erase cfg victimKey s).2

/-- One step of the `evictFIFO` scan: keep the (key, fifo_order) pair with
the strictly smallest order seen so far. -/
def fifoStep (acc : Int × Nat) (e : Entry) : Int × Nat :=
  if e.fifo_order < acc.2 then (e.key, e.fifo_order) else acc

/-- The victim selection of `evictFIFO` (inline_cache.h lines 224-236):
scan every bucket, starting from `victimKey = -1, victimOrder = SIZE_MAX`,
for the entry with the smallest `fifo_order`. -/
def fifoVictim (s : CacheState) : Int :=
  (s.buckets.foldl (fun acc b => b.foldl fifoStep acc) ((-1 : Int), 2 ^ 64 - 1)).1

/-- `evictFIFO` (inline_cache.h lines 224-238): erase the scanned victim,
unless the scan produced the sentinel `-1` (`if (victimKey != -1)`). -/
def evictFIFO (cfg : Config) (s : CacheState) : CacheState :=
  let victimKey := fifoVictim s
  if victimKey = -1 then s else (erase cfg victimKey s).2

/-- One draw of `std::uniform_int_distribution(0, n-1)` from the engine,
modelled by the oracle stream (see file header). -/
def draw (cfg : Config) (s : CacheState) (n : Nat) : Nat × CacheState :=
  (cfg.rng s.rngIdx % n, { s with rngIdx := s.rngIdx + 1 })

/-- The attempt loop of `evictRandom` (inline_cache.h lines 240-261): up to
32 times, draw a random bucket index; if that bucket is nonempty, draw a
random entry index in it and erase that entry's key; after 32 failed
attempts fall back to `evictLRU`. -/
def randAttempts (cfg : Config) : Nat → CacheState → CacheState
  | 0, s => evictLRU cfg s
  | attempts + 1, s =>
    let p := draw cfg s cfg.bucketCount
    match p.2.buckets.getD p.1 [] with
    | [] => randAttempts cfg attempts p.2
    | e0 :: rest =>
      let q := draw cfg p.2 (e0 :: rest).length
      match (e0 :: rest)[q.1]? with
      | some e => (erase cfg e.key q.2).2
      | none => q.2

/-- `evictRandom` (inline_cache.h lines 240-261). -/
def evictRandom (cfg : Config) (s : CacheState) : CacheState :=
  randAttempts cfg 32 s

/-- The policy dispatch inside the eviction loop
(inline_cache.h lines 207-209). -/
def evictOnce (cfg : Config) (s : CacheState) : CacheState :=
  match cfg.policy with
  | Policy.LRU => evictLRU cfg s
  | Policy.FIFO => evictFIFO cfg s
  | Policy.Random => evictRandom cfg s

/-- `stats_.evictions++` executed on every iteration of the eviction loop
(inline_cache.h line 210). -/
def bumpEvictions (s : CacheState) : CacheState :=
  { s with stats := { s.stats with evictions := s.stats.evictions + 1 } }

/-- The guarded eviction loop of `evictIfNeeded` (inline_cache.h lines
202-212): while `bytes_estimated > maxBytes_ && size_entries > 0` and fewer
than 10000 iterations have run, perform one policy eviction and increment
the eviction counter. `fuel` is the number of loop iterations still allowed
by the `guard < 10000` check. -/
def evictLoop (cfg : Config) : Nat → CacheState → CacheState
  | 0, s => s
  | fuel + 1, s =>
    if cfg.maxBytes < s.stats.bytes_estimated ∧ 0 < s.stats.size_entries then
      evictLoop cfg fuel (bumpEvictions (evictOnce cfg s))
    else s

/-- `evictIfNeeded` (inline_cache.h lines 202-212). -/
def evictIfNeeded (cfg : Config) (s : CacheState) : CacheState :=
  evictLoop cfg 10000 s

/-- `get` (inline_cache.h lines 52-64): scan the key's bucket; on a hit,
count the hit, touch the recency list, and return the value; on a miss count
the miss. -/
def get (cfg : Config) (key : Int) (s : CacheState) : Option String × CacheState :=
  match findInBucket key (bucketOf cfg s key) with
  | some e =>
    (some e.value, touchLRU key { s with stats := { s.stats with hits := s.stats.hits + 1 } })
  | none => (none, { s with stats := { s.stats with misses := s.stats.misses + 1 } })

/-- `update_or_insert` (inline_cache.h lines 67-91). Found branch: adjust the
byte estimate, replace value and timestamp in place, touch the recency list,
run the eviction loop, return false. Absent branch: push a fresh entry
(timestamp `now()`, order `fifoCounter_++`) at the front of the bucket and of
`lruList_`, grow the counters by `sizeof(Entry) + value.size()`, run the
eviction loop, return true. -/
def update_or_insert (cfg : Config) (key : Int) (value : String) (s : CacheState) :
    Bool × CacheState :=
  let bi := bucketFor cfg key
  match findInBucket key (s.buckets.getD bi []) with
  | some e =>
    let s1 : CacheState :=
      { s with
        buckets := s.buckets.set bi (replaceInBucket key value s.clock (s.buckets.getD bi []))
        clock := s.clock + 1
        stats := { s.stats with
          bytes_estimated :=
            adjustBytesOnUpdate e.value.length value.length s.stats.bytes_estimated } }
    (false, evictIfNeeded cfg (touchLRU key s1))
  | none =>
    let entryOverhead := cfg.entrySize + value.length
    let s1 : CacheState :=
      { s with
        buckets := s.buckets.set bi
          ({ key := key, value := value, timestamp := s.clock, fifo_order := s.fifoCounter }
            :: s.buckets.getD bi [])
        lruList := key :: s.lruList
        clock := s.clock + 1
        fifoCounter := s.fifoCounter + 1
        stats := { s.stats with
          size_entries := s.stats.size_entries + 1
          bytes_estimated := s.stats.bytes_estimated + entryOverhead } }
    (true, evictIfNeeded cfg s1)

/-- `insert_if_absent` (inline_cache.h lines 94-112). Found branch: touch the
recency list and return false. Absent branch: identical insertion code to
`update_or_insert`, return true. -/
def insert_if_absent (cfg : Config) (key : Int) (value : String) (s : CacheState) :
    Bool × CacheState :=
  let bi := bucketFor cfg key
  match findInBucket key (s.buckets.getD bi []) with
  | some _ => (false, touchLRU key s)
  | none =>
    let entryOverhead := cfg.entrySize + value.length
    let s1 : CacheState :=
      { s with
        buckets := s.buckets.set bi
          ({ key := key, value := value, timestamp := s.clock, fifo_order := s.fifoCounter }
            :: s.buckets.getD bi [])
        lruList := key :: s.lruList
        clock := s.clock + 1
        fifoCounter := s.fifoCounter + 1
        stats := { s.stats with
          size_entries := s.stats.size_entries + 1
          bytes_estimated := s.stats.bytes_estimated + entryOverhead } }
    (true, evictIfNeeded cfg s1)

/-- `update` (inline_cache.h lines 115-129). Found branch: identical
mutation code to the found branch of `update_or_insert`, return true.
Absent branch: return false with no side effect. -/
def update (cfg : Config) (key : Int) (value : String) (s : CacheState) :
    Bool × CacheState :=
  let bi := bucketFor cfg key
  match findInBucket key (s.buckets.getD bi []) with
  | some e =>
    let s1 : CacheState :=
      { s with
        buckets := s.buckets.set bi (replaceInBucket key value s.clock (s.buckets.getD bi []))
        clock := s.clock + 1
        stats := { s.stats with
          bytes_estimated :=
            adjustBytesOnUpdate e.value.length value.length s.stats.bytes_estimated } }
    (true, evictIfNeeded cfg (touchLRU key s1))
  | none => (false, s)

/-- A single-threaded call against the public API of the cache. -/
inductive Op where
  | opGet (k : Int) : Op
  | opUpdateOrInsert (k : Int) (v : String) : Op
  | opInsertIfAbsent (k : Int) (v : String) : Op
  | opUpdate (k : Int) (v : String) : Op
  | opErase (k : Int) : Op

/-- State transition of one public call (return value discarded). -/
def applyOp (cfg : Config) (s : CacheState) : Op → CacheState
  | Op.opGet k => (get cfg k s).2
  | Op.opUpdateOrInsert k v => (update_or_insert cfg k v s).2
  | Op.opInsertIfAbsent k v => (insert_if_absent cfg k v s).2
  | Op.opUpdate k v => (update cfg k v s).2
  | Op.opErase k => (erase cfg k s).2

/-- Run a sequence of single-threaded calls. -/
def runOps (cfg : Config) (ops : List Op) (s : CacheState) : CacheState :=
  ops.foldl (applyOp cfg) s

/-- Keys of a bucket, in list order. -/
def bucketKeys (b : List Entry) : List Int := b.map Entry.key

/-- The given state with the cumulative eviction counter replaced by `n`
(used to describe the eviction loop spinning on a stalled victim selection,
where the counter is the only thing that changes). -/
def withEvictions (n : Nat) (s : CacheState) : CacheState :=
  { s with stats := { s.stats with evictions := n } }

/-- The given state with the random-draw cursor replaced by `n` (used to
describe states reached while `evictRandom` consumes oracle draws, where the
cursor is the only thing that changes between attempts). -/
def withRngIdx (n : Nat) (s : CacheState) : CacheState :=
  { s with rngIdx := n }

/-- Budget convergence as the eviction loop actually guarantees it: the byte
estimate is within budget, or the cache is empty, or at some point a single
call's eviction loop ran through its full 10000-iteration guard (each
iteration increments `evictions` exactly once, so the cumulative counter is
then at least 10000 and never decreases afterwards). -/
def BudgetInv (cfg : Config) (s : CacheState) : Prop :=
  s.stats.bytes_estimated ≤ cfg.maxBytes ∨ s.stats.size_entries = 0 ∨
    10000 ≤ s.stats.evictions

/-- Key-uniqueness property of a state, for one key `k`: every bucket that
contains `k` is the bucket `bucketFor` assigns to `k` (so `k` is stored in at
most one shard, a pure function of `k`), `k` occurs at most once in that
bucket, and `k` occurs at most once in the recency index. -/
def KeyUnique (cfg : Config) (k : Int) (s : CacheState) : Prop :=
  (∀ i < s.buckets.length, k ∈ bucketKeys (s.buckets.getD i []) → i = bucketFor cfg k) ∧
  (bucketKeys (bucketOf cfg s k)).count k ≤ 1 ∧
  s.lruList.count k ≤ 1

/-- A concrete test configuration: 4 buckets, entry overhead 64 bytes,
constant-zero random oracle. Used by the concrete evaluations below. -/
def cfg4 (p : Policy) (B : Nat) : Config :=
  { policy := p, maxBytes := B, bucketCount := 4, entrySize := 64, rng := fun _ => 0 }

/-- The state of a `cfg4` cache right before the eviction loop of the call
`update_or_insert(-1, "")` on a fresh cache: one entry with key `-1`
(hashing to bucket `(2^64 - 1) % 4 = 3`), 64 estimated bytes. -/
def sNeg1 : CacheState :=
  { buckets := [[], [], [], [{ key := -1, value := "", timestamp := 0, fifo_order := 0 }]]
    lruList := [-1]
    fifoCounter := 1
    clock := 1
    rngIdx := 0
    stats := { size_entries := 1, bytes_estimated := 64, hits := 0, misses := 0,
               evictions := 0 } }

/-- The state of a `cfg4` cache right before the eviction loop of the second
call of the sequence `update_or_insert(-1, ""); update_or_insert(5, "")` on a
fresh cache with budget 64: entries `-1` (inserted first) and `5`,
128 estimated bytes, recency order `[5, -1]`. -/
def sNeg2 : CacheState :=
  { buckets := [[], [{ key := 5, value := "", timestamp := 1, fifo_order := 1 }], [],
                [{ key := -1, value := "", timestamp := 0, fifo_order := 0 }]]
    lruList := [5, -1]
    fifoCounter := 2
    clock := 2
    rngIdx := 0
    stats := { size_entries := 2, bytes_estimated := 128, hits := 0, misses := 0,
               evictions := 0 } }

/-- The state of a fresh `cfg` cache right after the insertion step of
`update_or_insert(k, v)` (before its eviction loop runs): a single entry with
timestamp 0 and insertion sequence 0, in the bucket of `k`. -/
def freshOne (cfg : Config) (k : Int) (v : String) : CacheState :=
  { buckets := (List.replicate cfg.bucketCount []).set (bucketFor cfg k)
      [{ key := k, value := v, timestamp := 0, fifo_order := 0 }]
    lruList := [k]
    fifoCounter := 1
    clock := 1
    rngIdx := 0
    stats := { size_entries := 1, bytes_estimated := cfg.entrySize + v.length,
               hits := 0, misses := 0, evictions := 0 } }

/-- The `cfg4` state after `update_or_insert(0, "a")` on a fresh cache with
budget 1000: entry ⟨0, "a"⟩ created at logical time 0. -/
def s6a : CacheState :=
  { buckets := [[{ key := 0, value := "a", timestamp := 0, fifo_order := 0 }], [], [], []]
    lruList := [0]
    fifoCounter := 1
    clock := 1
    rngIdx := 0
    stats := { size_entries := 1, bytes_estimated := 65, hits := 0, misses := 0,
               evictions := 0 } }

/-- The state `s6a` after `update(0, "b")`: the value is replaced in place
and the timestamp is overwritten with the update time 1 (`fifo_order` is
untouched). -/
def s6b : CacheState :=
  { buckets := [[{ key := 0, value := "b", timestamp := 1, fifo_order := 0 }], [], [], []]
    lruList := [0]
    fifoCounter := 1
    clock := 2
    rngIdx := 0
    stats := { size_entries := 1, bytes_estimated := 65, hits := 0, misses := 0,
               evictions := 0 } }

/-- Structural well-formedness of a cache state: the bucket table has the
configured size, every entry sits in the bucket its key hashes to, no bucket
holds two entries with the same key, the recency list has no duplicate keys,
and the recency list holds exactly the live keys. -/
def WFState (cfg : Config) (s : CacheState) : Prop :=
  s.buckets.length = cfg.bucketCount ∧
  (∀ i, ∀ e ∈ s.buckets.getD i [], bucketFor cfg e.key = i) ∧
  (∀ i, (bucketKeys (s.buckets.getD i [])).Nodup) ∧
  s.lruList.Nodup ∧
  (∀ k, k ∈ s.lruList ↔ k ∈ bucketKeys (bucketOf cfg s k))

/- Branch equations for the public operations: each lemma restates one
branch of the source function's key scan, given the outcome of the scan. -/

lemma get_of_found (cfg : Config) (k : Int) (s : CacheState) (e : Entry)
    (h : findInBucket k (bucketOf cfg s k) = some e) :
    get cfg k s =
      (some e.value,
        touchLRU k { s with stats := { s.stats with hits := s.stats.hits + 1 } }) := by
  simp only [get, h]

lemma get_of_absent (cfg : Config) (k : Int) (s : CacheState)
    (h : findInBucket k (bucketOf cfg s k) = none) :
    get cfg k s = (none, { s with stats := { s.stats with misses := s.stats.misses + 1 } }) := by
  simp only [get, h]

lemma update_or_insert_of_found (cfg : Config) (k : Int) (v : String) (s : CacheState)
    (e : Entry) (h : findInBucket k (s.buckets.getD (bucketFor cfg k) []) = some e) :
    update_or_insert cfg k v s =
      (false, evictIfNeeded cfg (touchLRU k
        { s with
          buckets := s.buckets.set (bucketFor cfg k)
            (replaceInBucket k v s.clock (s.buckets.getD (bucketFor cfg k) []))
          clock := s.clock + 1
          stats := { s.stats with
            bytes_estimated :=
              adjustBytesOnUpdate e.value.length v.length s.stats.bytes_estimated } })) := by
  simp only [update_or_insert, h]

lemma update_or_insert_of_absent (cfg : Config) (k : Int) (v : String) (s : CacheState)
    (h : findInBucket k (s.buckets.getD (bucketFor cfg k) []) = none) :
    update_or_insert cfg k v s =
      (true, evictIfNeeded cfg
        { s with
          buckets := s.buckets.set (bucketFor cfg k)
            ({ key := k, value := v, timestamp := s.clock, fifo_order := s.fifoCounter }
              :: s.buckets.getD (bucketFor cfg k) [])
          lruList := k :: s.lruList
          clock := s.clock + 1
          fifoCounter := s.fifoCounter + 1
          stats := { s.stats with
            size_entries := s.stats.size_entries + 1
            bytes_estimated := s.stats.bytes_estimated + (cfg.entrySize + v.length) } }) := by
  simp only [update_or_insert, h]

lemma insert_if_absent_of_found (cfg : Config) (k : Int) (v : String) (s : CacheState)
    (e : Entry) (h : findInBucket k (s.buckets.getD (bucketFor cfg k) []) = some e) :
    insert_if_absent cfg k v s = (false, touchLRU k s) := by
  simp only [insert_if_absent, h]

lemma insert_if_absent_of_absent (cfg : Config) (k : Int) (v : String) (s : CacheState)
    (h : findInBucket k (s.buckets.getD (bucketFor cfg k) []) = none) :
    insert_if_absent cfg k v s =
      (true, evictIfNeeded cfg
        { s with
          buckets := s.buckets.set (bucketFor cfg k)
            ({ key := k, value := v, timestamp := s.clock, fifo_order := s.fifoCounter }
              :: s.buckets.getD (bucketFor cfg k) [])
          lruList := k :: s.lruList
          clock := s.clock + 1
          fifoCounter := s.fifoCounter + 1
          stats := { s.stats with
            size_entries := s.stats.size_entries + 1
            bytes_estimated := s.stats.bytes_estimated + (cfg.entrySize + v.length) } }) := by
  simp only [insert_if_absent, h]

lemma update_of_found (cfg : Config) (k : Int) (v : String) (s : CacheState)
    (e : Entry) (h : findInBucket k (s.buckets.getD (bucketFor cfg k) []) = some e) :
    update cfg k v s =
      (true, evictIfNeeded cfg (touchLRU k
        { s with
          buckets := s.buckets.set (bucketFor cfg k)
            (replaceInBucket k v s.clock (s.buckets.getD (bucketFor cfg k) []))
          clock := s.clock + 1
          stats := { s.stats with
            bytes_estimated :=
              adjustBytesOnUpdate e.value.length v.length s.stats.bytes_estimated } })) := by
  simp only [update, h]

lemma update_of_absent (cfg : Config) (k : Int) (v : String) (s : CacheState)
    (h : findInBucket k (s.buckets.getD (bucketFor cfg k) []) = none) :
    update cfg k v s = (false, s) := by
  simp only [update, h]

lemma erase_of_found (cfg : Config) (k : Int) (s : CacheState) (e : Entry)
    (h : findInBucket k (bucketOf cfg s k) = some e) :
    erase cfg k s = (true, removeEntry cfg e s) := by
  simp only [erase, h]

lemma erase_of_absent (cfg : Config) (k : Int) (s : CacheState)
    (h : findInBucket k (bucketOf cfg s k) = none) :
    erase cfg k s = (false, s) := by
  simp only [erase, h]

/- Basic lemmas about `withEvictions`. -/

@[simp] lemma withEvictions_buckets (n : Nat) (s : CacheState) :
    (withEvictions n s).buckets = s.buckets := rfl

@[simp] lemma withEvictions_lruList (n : Nat) (s : CacheState) :
    (withEvictions n s).lruList = s.lruList := rfl

@[simp] lemma withEvictions_bytes (n : Nat) (s : CacheState) :
    (withEvictions n s).stats.bytes_estimated = s.stats.bytes_estimated := rfl

@[simp] lemma withEvictions_entries (n : Nat) (s : CacheState) :
    (withEvictions n s).stats.size_entries = s.stats.size_entries := rfl

@[simp] lemma withEvictions_evictions (n : Nat) (s : CacheState) :
    (withEvictions n s).stats.evictions = n := rfl

@[simp] lemma withEvictions_withEvictions (n m : Nat) (s : CacheState) :
    withEvictions n (withEvictions m s) = withEvictions n s := rfl

@[simp] lemma withEvictions_self (s : CacheState) :
    withEvictions s.stats.evictions s = s := rfl

lemma bumpEvictions_eq (s : CacheState) :
    bumpEvictions s = withEvictions (s.stats.evictions + 1) s := rfl

@[simp] lemma fifoVictim_withEvictions (n : Nat) (s : CacheState) :
    fifoVictim (withEvictions n s) = fifoVictim s := rfl

/- Stalled victim selection: the `-1` sentinel in `evictLRU`/`evictFIFO`. -/

/-- When the tail of the recency list is the key `-1` (or the list is empty),
`evictLRU` is the identity: `victimKey == -1` aborts the eviction. -/
lemma evictLRU_sentinel (cfg : Config) (s : CacheState)
    (h : s.lruList.getLast? = some (-1) ∨ s.lruList.getLast? = none) :
    evictLRU cfg s = s := by
  rcases h with h | h <;> simp [evictLRU, h]

/-- When the FIFO scan returns the sentinel `-1` (either because the entry of
minimal insertion order has key `-1`, or because there are no entries),
`evictFIFO` is the identity. -/
lemma evictFIFO_sentinel (cfg : Config) (s : CacheState)
    (h : fifoVictim s = -1) :
    evictFIFO cfg s = s := by
  simp [evictFIFO, h]

/-- If one policy eviction leaves the state unchanged (for every value of the
eviction counter), the whole eviction loop only spins: it runs its full
`fuel` iterations, incrementing `evictions` each time and changing nothing
else. -/
lemma evictLoop_stall (cfg : Config) (fuel : Nat) (s : CacheState)
    (hno : ∀ n, evictOnce cfg (withEvictions n s) = withEvictions n s)
    (hb : cfg.maxBytes < s.stats.bytes_estimated)
    (he : 0 < s.stats.size_entries) :
    evictLoop cfg fuel s = withEvictions (s.stats.evictions + fuel) s := by
  induction fuel generalizing s with
  | zero => simp [evictLoop]
  | succ m ih =>
    have hstep : evictOnce cfg s = s := by
      have := hno s.stats.evictions
      simpa using this
    rw [evictLoop]
    rw [if_pos ⟨hb, he⟩, hstep, bumpEvictions_eq]
    rw [ih (withEvictions (s.stats.evictions + 1) s)
      (by intro n; simpa using hno n) (by simpa using hb) (by simpa using he)]
    simp [Nat.add_assoc, Nat.add_comm 1 m]

/-- `evictIfNeeded` on a stalled state: the loop spins through its full
10000-iteration guard, incrementing `evictions` 10000 times and changing
nothing else. -/
lemma evictIfNeeded_stall (cfg : Config) (s : CacheState)
    (hno : ∀ n, evictOnce cfg (withEvictions n s) = withEvictions n s)
    (hb : cfg.maxBytes < s.stats.bytes_estimated)
    (he : 0 < s.stats.size_entries) :
    evictIfNeeded cfg s = withEvictions (s.stats.evictions + 10000) s := by
  show evictLoop cfg 10000 s = withEvictions (s.stats.evictions + 10000) s
  exact evictLoop_stall cfg 10000 s hno hb he

/-- If the byte estimate is within budget, the eviction loop does nothing. -/
lemma evictLoop_of_le (cfg : Config) (fuel : Nat) (s : CacheState)
    (h : s.stats.bytes_estimated ≤ cfg.maxBytes) :
    evictLoop cfg fuel s = s := by
  cases fuel with
  | zero => rfl
  | succ m =>
    rw [evictLoop, if_neg]
    rintro ⟨h1, -⟩
    exact absurd h (Nat.not_le.mpr h1)

/-- `evictIfNeeded` on a state already within budget does nothing. -/
lemma evictIfNeeded_of_le (cfg : Config) (s : CacheState)
    (h : s.stats.bytes_estimated ≤ cfg.maxBytes) :
    evictIfNeeded cfg s = s := by
  show evictLoop cfg 10000 s = s
  exact evictLoop_of_le cfg 10000 s h

/- The eviction counter never decreases. -/

lemma removeEntry_evictions (cfg : Config) (e : Entry) (s : CacheState) :
    (removeEntry cfg e s).stats.evictions = s.stats.evictions := rfl

lemma erase_evictions (cfg : Config) (k : Int) (s : CacheState) :
    (erase cfg k s).2.stats.evictions = s.stats.evictions := by
  unfold erase
  cases findInBucket k (bucketOf cfg s k) <;> rfl

lemma evictLRU_evictions (cfg : Config) (s : CacheState) :
    (evictLRU cfg s).stats.evictions = s.stats.evictions := by
  simp only [evictLRU]
  split
  · rfl
  · exact erase_evictions ..

lemma evictFIFO_evictions (cfg : Config) (s : CacheState) :
    (evictFIFO cfg s).stats.evictions = s.stats.evictions := by
  simp only [evictFIFO]
  split
  · rfl
  · exact erase_evictions ..

lemma randAttempts_evictions (cfg : Config) (attempts : Nat) (s : CacheState) :
    (randAttempts cfg attempts s).stats.evictions = s.stats.evictions := by
  induction attempts generalizing s with
  | zero => exact evictLRU_evictions ..
  | succ m ih =>
    rw [randAttempts]
    cases h : (draw cfg s cfg.bucketCount).2.buckets.getD (draw cfg s cfg.bucketCount).1 [] with
    | nil => simp only [h]; rw [ih]; rfl
    | cons e0 rest =>
      simp only [h]
      cases hq : (e0 :: rest)[((draw cfg (draw cfg s cfg.bucketCount).2 (e0 :: rest).length).1)]? with
      | none => simp only [hq]; rfl
      | some e => simp only [hq]; rw [erase_evictions]; rfl

lemma evictOnce_evictions (cfg : Config) (s : CacheState) :
    (evictOnce cfg s).stats.evictions = s.stats.evictions := by
  unfold evictOnce
  cases cfg.policy with
  | LRU => exact evictLRU_evictions ..
  | FIFO => exact evictFIFO_evictions ..
  | Random => exact randAttempts_evictions ..

/-- The post-condition of the guarded eviction loop: either the loop stopped
because it brought the byte estimate within budget or emptied the cache, or
it ran through all of its fuel, having incremented `evictions` once per
iteration. -/
lemma evictLoop_post (cfg : Config) (fuel : Nat) (s : CacheState) :
    (evictLoop cfg fuel s).stats.bytes_estimated ≤ cfg.maxBytes ∨
    (evictLoop cfg fuel s).stats.size_entries = 0 ∨
    s.stats.evictions + fuel ≤ (evictLoop cfg fuel s).stats.evictions := by
  induction fuel generalizing s with
  | zero => right; right; simp [evictLoop]
  | succ m ih =>
    rw [evictLoop]
    split
    · rcases ih (bumpEvictions (evictOnce cfg s)) with h | h | h
      · exact Or.inl h
      · exact Or.inr (Or.inl h)
      · right; right
        have hb : (bumpEvictions (evictOnce cfg s)).stats.evictions
            = s.stats.evictions + 1 := by
          show (evictOnce cfg s).stats.evictions + 1 = _
          rw [evictOnce_evictions]
        omega
    · rename_i hcond
      rcases Decidable.not_and_iff_or_not.mp hcond with h | h
      · exact Or.inl (Nat.not_lt.mp h)
      · exact Or.inr (Or.inl (Nat.eq_zero_of_not_pos h))

/- Preservation of `BudgetInv` by every public call. -/

lemma touchLRU_stats (k : Int) (s : CacheState) :
    (touchLRU k s).stats = s.stats := by
  simp only [touchLRU]
  split <;> rfl

lemma budgetInv_evictIfNeeded (cfg : Config) (s : CacheState) :
    BudgetInv cfg (evictIfNeeded cfg s) := by
  show BudgetInv cfg (evictLoop cfg 10000 s)
  rcases evictLoop_post cfg 10000 s with h | h | h
  · exact Or.inl h
  · exact Or.inr (Or.inl h)
  · exact Or.inr (Or.inr (by omega))

lemma budgetInv_update_or_insert (cfg : Config) (k : Int) (v : String) (s : CacheState) :
    BudgetInv cfg (update_or_insert cfg k v s).2 := by
  simp only [update_or_insert]
  cases findInBucket k (s.buckets.getD (bucketFor cfg k) []) <;>
    exact budgetInv_evictIfNeeded ..

lemma budgetInv_insert_if_absent (cfg : Config) (k : Int) (v : String) (s : CacheState)
    (h : BudgetInv cfg s) :
    BudgetInv cfg (insert_if_absent cfg k v s).2 := by
  simp only [insert_if_absent]
  cases findInBucket k (s.buckets.getD (bucketFor cfg k) []) with
  | none => exact budgetInv_evictIfNeeded ..
  | some e =>
    show BudgetInv cfg (touchLRU k s)
    unfold BudgetInv
    rw [touchLRU_stats]
    exact h

lemma budgetInv_update (cfg : Config) (k : Int) (v : String) (s : CacheState)
    (h : BudgetInv cfg s) :
    BudgetInv cfg (update cfg k v s).2 := by
  simp only [update]
  cases findInBucket k (s.buckets.getD (bucketFor cfg k) []) with
  | none => exact h
  | some e => exact budgetInv_evictIfNeeded ..

lemma budgetInv_get (cfg : Config) (k : Int) (s : CacheState)
    (h : BudgetInv cfg s) :
    BudgetInv cfg (get cfg k s).2 := by
  simp only [get]
  cases findInBucket k (bucketOf cfg s k) with
  | none => exact h
  | some e =>
    show BudgetInv cfg (touchLRU k _)
    unfold BudgetInv
    rw [touchLRU_stats]
    exact h

lemma budgetInv_erase (cfg : Config) (k : Int) (s : CacheState)
    (h : BudgetInv cfg s) :
    BudgetInv cfg (erase cfg k s).2 := by
  simp only [erase]
  cases findInBucket k (bucketOf cfg s k) with
  | none => exact h
  | some e =>
    show BudgetInv cfg (removeEntry cfg e s)
    rcases h with h | h | h
    · exact Or.inl (Nat.le_trans (Nat.sub_le ..) h)
    · refine Or.inr (Or.inl ?_)
      show s.stats.size_entries - 1 = 0
      omega
    · exact Or.inr (Or.inr h)

lemma budgetInv_applyOp (cfg : Config) (s : CacheState) (op : Op)
    (h : BudgetInv cfg s) : BudgetInv cfg (applyOp cfg s op) := by
  cases op with
  | opGet k => exact budgetInv_get cfg k s h
  | opUpdateOrInsert k v => exact budgetInv_update_or_insert ..
  | opInsertIfAbsent k v => exact budgetInv_insert_if_absent cfg k v s h
  | opUpdate k v => exact budgetInv_update cfg k v s h
  | opErase k => exact budgetInv_erase cfg k s h

lemma budgetInv_runOps (cfg : Config) (ops : List Op) :
    ∀ s : CacheState, BudgetInv cfg s → BudgetInv cfg (runOps cfg ops s) := by
  induction ops with
  | nil => intro s h; exact h
  | cons op rest ih =>
    intro s h
    exact ih (applyOp cfg s op) (budgetInv_applyOp cfg s op h)

/-- C1 (amended): for every configuration and every sequence of
single-threaded public calls starting from a fresh cache — in particular
immediately after any `insert_if_absent`, `update`, or `update_or_insert`
call returns — the statistics satisfy `bytes_estimated ≤ maxBytes`, or
`size_entries = 0`, or `evictions ≥ 10000`, the latter recording that some
call's eviction loop ran through its full 10000-iteration defensive guard
without restoring the budget (which happens when victim selection stalls on
the `-1` sentinel, or when a single call would need more than 10000
evictions). -/
theorem budget_convergence (cfg : Config) (ops : List Op) :
    (runOps cfg ops (mkCache cfg)).stats.bytes_estimated ≤ cfg.maxBytes ∨
    (runOps cfg ops (mkCache cfg)).stats.size_entries = 0 ∨
    10000 ≤ (runOps cfg ops (mkCache cfg)).stats.evictions :=
  budgetInv_runOps cfg ops (mkCache cfg) (Or.inl (Nat.zero_le _))

/-- C1 counterexample to the claim as stated: on an LRU cache with byte
budget 1, four buckets and entry overhead 64, the single call
`update_or_insert(-1, "")` returns with `bytes_estimated = 64 > 1` and
`size_entries = 1 ≠ 0`: the eviction loop stalls on the `-1` victim sentinel
(the just-inserted key is `-1`), so neither disjunct of the claimed invariant
holds after the call. -/
theorem budget_convergence_cex :
    ¬ ((update_or_insert (cfg4 Policy.LRU 1) (-1) ""
          (mkCache (cfg4 Policy.LRU 1))).2.stats.bytes_estimated ≤ 1 ∨
       (update_or_insert (cfg4 Policy.LRU 1) (-1) ""
          (mkCache (cfg4 Policy.LRU 1))).2.stats.size_entries = 0) := by
  have hno : ∀ n, evictOnce (cfg4 Policy.LRU 1) (withEvictions n sNeg1)
      = withEvictions n sNeg1 := by
    intro n
    show evictLRU (cfg4 Policy.LRU 1) (withEvictions n sNeg1) = withEvictions n sNeg1
    exact evictLRU_sentinel _ _ (Or.inl rfl)
  have h2 : (update_or_insert (cfg4 Policy.LRU 1) (-1) ""
      (mkCache (cfg4 Policy.LRU 1))).2 = evictIfNeeded (cfg4 Policy.LRU 1) sNeg1 := by
    rw [update_or_insert_of_absent _ _ _ _ (by decide)]
    dsimp only
    congr 1
  rw [h2, evictIfNeeded_stall (cfg4 Policy.LRU 1) sNeg1 hno (by decide) (by decide)]
  decide

/-- C2: evaluation of the code at the failing input. On an LRU cache with
byte budget 1, the single call `update_or_insert(-1, "")` leaves the
cumulative eviction counter at 10000 although the eviction engine removed no
entry at all: the one inserted entry (key `-1`) is still present and
`size_entries = 1`. The loop increments `evictions` on every iteration
(inline_cache.h line 210) even when the victim selection stalls on the `-1`
sentinel, contradicting the claim that `evictions` counts removed entries. -/
theorem eviction_counter_overcount :
    (update_or_insert (cfg4 Policy.LRU 1) (-1) ""
        (mkCache (cfg4 Policy.LRU 1))).2.stats.evictions = 10000 ∧
    (update_or_insert (cfg4 Policy.LRU 1) (-1) ""
        (mkCache (cfg4 Policy.LRU 1))).2.stats.size_entries = 1 ∧
    findInBucket (-1) (bucketOf (cfg4 Policy.LRU 1)
        (update_or_insert (cfg4 Policy.LRU 1) (-1) ""
          (mkCache (cfg4 Policy.LRU 1))).2 (-1))
      = some { key := -1, value := "", timestamp := 0, fifo_order := 0 } := by
  have hno : ∀ n, evictOnce (cfg4 Policy.LRU 1) (withEvictions n sNeg1)
      = withEvictions n sNeg1 := by
    intro n
    show evictLRU (cfg4 Policy.LRU 1) (withEvictions n sNeg1) = withEvictions n sNeg1
    exact evictLRU_sentinel _ _ (Or.inl rfl)
  have h2 : (update_or_insert (cfg4 Policy.LRU 1) (-1) ""
      (mkCache (cfg4 Policy.LRU 1))).2 = evictIfNeeded (cfg4 Policy.LRU 1) sNeg1 := by
    rw [update_or_insert_of_absent _ _ _ _ (by decide)]
    dsimp only
    congr 1
  rw [h2, evictIfNeeded_stall (cfg4 Policy.LRU 1) sNeg1 hno (by decide) (by decide)]
  refine ⟨by decide, by decide, by decide⟩

/-- C3: evaluation of the code at the failing input. LRU cache with budget
64 (room for one empty-value entry): after `update_or_insert(-1, "")` then
`update_or_insert(5, "")`, the recency index is `[5, -1]` — its tail, the
least-recently-used key, is `-1` — the cache is over budget (128 > 64) and
the eviction loop ran (10000 iterations), yet the tail key `-1` was never
evicted and is still present, because `evictLRU` confuses the victim key
`-1` with its no-victim sentinel (inline_cache.h lines 218-220). -/
theorem lru_eviction_sentinel_bug :
    (update_or_insert (cfg4 Policy.LRU 64) 5 ""
        (update_or_insert (cfg4 Policy.LRU 64) (-1) ""
          (mkCache (cfg4 Policy.LRU 64))).2).2.lruList = [5, -1] ∧
    64 < (update_or_insert (cfg4 Policy.LRU 64) 5 ""
        (update_or_insert (cfg4 Policy.LRU 64) (-1) ""
          (mkCache (cfg4 Policy.LRU 64))).2).2.stats.bytes_estimated ∧
    (update_or_insert (cfg4 Policy.LRU 64) 5 ""
        (update_or_insert (cfg4 Policy.LRU 64) (-1) ""
          (mkCache (cfg4 Policy.LRU 64))).2).2.stats.evictions = 10000 ∧
    findInBucket (-1) (bucketOf (cfg4 Policy.LRU 64)
        (update_or_insert (cfg4 Policy.LRU 64) 5 ""
          (update_or_insert (cfg4 Policy.LRU 64) (-1) ""
            (mkCache (cfg4 Policy.LRU 64))).2).2 (-1))
      = some { key := -1, value := "", timestamp := 0, fifo_order := 0 } := by
  have hno : ∀ n, evictOnce (cfg4 Policy.LRU 64) (withEvictions n sNeg2)
      = withEvictions n sNeg2 := by
    intro n
    show evictLRU (cfg4 Policy.LRU 64) (withEvictions n sNeg2) = withEvictions n sNeg2
    exact evictLRU_sentinel _ _ (Or.inl rfl)
  have h0 : (update_or_insert (cfg4 Policy.LRU 64) (-1) ""
      (mkCache (cfg4 Policy.LRU 64))).2 = sNeg1 := by
    rw [update_or_insert_of_absent _ _ _ _ (by decide)]
    dsimp only
    rw [evictIfNeeded_of_le _ _ (by decide)]
    decide
  have h2 : (update_or_insert (cfg4 Policy.LRU 64) 5 "" sNeg1).2
      = evictIfNeeded (cfg4 Policy.LRU 64) sNeg2 := by
    rw [update_or_insert_of_absent _ _ _ _ (by decide)]
    dsimp only
    congr 1
  rw [h0, h2, evictIfNeeded_stall (cfg4 Policy.LRU 64) sNeg2 hno (by decide) (by decide)]
  refine ⟨by decide, by decide, by decide, by decide⟩

/-- C4: evaluation of the code at the failing input. FIFO cache with budget
64: after `update_or_insert(-1, "")` then `update_or_insert(5, "")`, the
live entry with the smallest `insertion_sequence` is key `-1` (order 0), the
cache is over budget (128 > 64) and the eviction loop ran (10000
iterations), yet that entry was never evicted — both entries remain —
because the FIFO scan result `-1` is indistinguishable from its no-victim
sentinel (inline_cache.h lines 226, 237). -/
theorem fifo_eviction_sentinel_bug :
    fifoVictim (update_or_insert (cfg4 Policy.FIFO 64) 5 ""
        (update_or_insert (cfg4 Policy.FIFO 64) (-1) ""
          (mkCache (cfg4 Policy.FIFO 64))).2).2 = -1 ∧
    64 < (update_or_insert (cfg4 Policy.FIFO 64) 5 ""
        (update_or_insert (cfg4 Policy.FIFO 64) (-1) ""
          (mkCache (cfg4 Policy.FIFO 64))).2).2.stats.bytes_estimated ∧
    (update_or_insert (cfg4 Policy.FIFO 64) 5 ""
        (update_or_insert (cfg4 Policy.FIFO 64) (-1) ""
          (mkCache (cfg4 Policy.FIFO 64))).2).2.stats.evictions = 10000 ∧
    findInBucket (-1) (bucketOf (cfg4 Policy.FIFO 64)
        (update_or_insert (cfg4 Policy.FIFO 64) 5 ""
          (update_or_insert (cfg4 Policy.FIFO 64) (-1) ""
            (mkCache (cfg4 Policy.FIFO 64))).2).2 (-1))
      = some { key := -1, value := "", timestamp := 0, fifo_order := 0 } ∧
    findInBucket 5 (bucketOf (cfg4 Policy.FIFO 64)
        (update_or_insert (cfg4 Policy.FIFO 64) 5 ""
          (update_or_insert (cfg4 Policy.FIFO 64) (-1) ""
            (mkCache (cfg4 Policy.FIFO 64))).2).2 5)
      = some { key := 5, value := "", timestamp := 1, fifo_order := 1 } := by
  have hno : ∀ n, evictOnce (cfg4 Policy.FIFO 64) (withEvictions n sNeg2)
      = withEvictions n sNeg2 := by
    intro n
    show evictFIFO (cfg4 Policy.FIFO 64) (withEvictions n sNeg2) = withEvictions n sNeg2
    refine evictFIFO_sentinel _ _ ?_
    rw [fifoVictim_withEvictions]
    decide
  have h0 : (update_or_insert (cfg4 Policy.FIFO 64) (-1) ""
      (mkCache (cfg4 Policy.FIFO 64))).2 = sNeg1 := by
    rw [update_or_insert_of_absent _ _ _ _ (by decide)]
    dsimp only
    rw [evictIfNeeded_of_le _ _ (by decide)]
    decide
  have h2 : (update_or_insert (cfg4 Policy.FIFO 64) 5 "" sNeg1).2
      = evictIfNeeded (cfg4 Policy.FIFO 64) sNeg2 := by
    rw [update_or_insert_of_absent _ _ _ _ (by decide)]
    dsimp only
    congr 1
  rw [h0, h2, evictIfNeeded_stall (cfg4 Policy.FIFO 64) sNeg2 hno (by decide) (by decide)]
  refine ⟨by decide, by decide, by decide, by decide, by decide⟩

/-- C5: `update_or_insert(k, v)` is exactly the composite "run `update(k, v)`;
if it updated, stop, else run `insert_if_absent(k, v)`" — on every state the
resulting cache (entries, recency order, clock, counters, and every
statistics field) is identical, and `update_or_insert` returns true exactly
when the composite reached the fresh-insert branch. -/
theorem update_or_insert_refines_composite (cfg : Config) (k : Int) (v : String)
    (s : CacheState) :
    update_or_insert cfg k v s =
      (match update cfg k v s with
       | (true, s1) => (false, s1)
       | (false, s1) => insert_if_absent cfg k v s1) := by
  cases h : findInBucket k (s.buckets.getD (bucketFor cfg k) []) with
  | some e =>
    rw [update_or_insert_of_found cfg k v s e h, update_of_found cfg k v s e h]
  | none =>
    rw [update_or_insert_of_absent cfg k v s h, update_of_absent cfg k v s h]
    dsimp only
    rw [insert_if_absent_of_absent cfg k v s h]

/-- C7: `update` on an absent key returns false and leaves the entire cache
state unchanged: no entry, no recency-index reordering, no statistics field
(hits, misses, bytes_estimated, evictions), no clock or counter change, and
the eviction engine is not run. -/
theorem update_absent_no_side_effects (cfg : Config) (k : Int) (v : String)
    (s : CacheState) (h : findInBucket k (bucketOf cfg s k) = none) :
    update cfg k v s = (false, s) :=
  update_of_absent cfg k v s h

/-- Witness for C7: key 9 is absent from the concrete one-entry state
`sNeg1`, and `update 9 "x"` on it returns false with the state unchanged. -/
theorem update_absent_no_side_effects_witness :
    findInBucket 9 (bucketOf (cfg4 Policy.LRU 64) sNeg1 9) = none ∧
    update (cfg4 Policy.LRU 64) 9 "x" sNeg1 = (false, sNeg1) :=
  ⟨by decide,
    update_absent_no_side_effects (cfg4 Policy.LRU 64) 9 "x" sNeg1 (by decide)⟩

/- List-level helper lemmas for the symbolic proofs below. -/

lemma getD_replicate_nil (n i : Nat) :
    (List.replicate n ([] : List Entry)).getD i [] = [] := by
  rw [List.getD_eq_getElem?_getD, List.getElem?_replicate]
  split <;> rfl

lemma getD_set_self (l : List (List Entry)) (i : Nat) (b : List Entry)
    (h : i < l.length) :
    (l.set i b).getD i [] = b := by
  rw [List.getD_eq_getElem?_getD, List.getElem?_set_self h]
  rfl

lemma getD_set_ne (l : List (List Entry)) (i j : Nat) (b : List Entry) (hij : i ≠ j) :
    (l.set i b).getD j [] = l.getD j [] := by
  rw [List.getD_eq_getElem?_getD, List.getElem?_set_ne hij, ← List.getD_eq_getElem?_getD]

lemma lt_length_of_findInBucket_ne_none (cfg : Config) (s : CacheState) (k : Int)
    (h : findInBucket k (bucketOf cfg s k) ≠ none) :
    bucketFor cfg k < s.buckets.length := by
  by_contra hlt
  apply h
  have hb : bucketOf cfg s k = [] := by
    unfold bucketOf
    rw [List.getD_eq_getElem?_getD, List.getElem?_eq_none (Nat.le_of_not_lt hlt)]
    rfl
  rw [hb]
  rfl

lemma findInBucket_replaceInBucket (k : Int) (v : String) (ts : Nat) :
    ∀ b : List Entry, findInBucket k (replaceInBucket k v ts b)
      = (findInBucket k b).map (fun e => { e with value := v, timestamp := ts })
  | [] => rfl
  | e :: rest => by
    by_cases hk : e.key = k
    · simp [replaceInBucket, findInBucket, hk]
    · simp only [replaceInBucket, findInBucket, hk, if_false, if_neg hk]
      exact findInBucket_replaceInBucket k v ts rest

lemma foldl_fifoStep_replaceInBucket (k : Int) (v : String) (ts : Nat) :
    ∀ (b : List Entry) (acc : Int × Nat),
      (replaceInBucket k v ts b).foldl fifoStep acc = b.foldl fifoStep acc
  | [], _ => rfl
  | e :: rest, acc => by
    by_cases hk : e.key = k
    · simp only [replaceInBucket, if_pos hk, List.foldl_cons]
      rw [show fifoStep acc
          { key := e.key, value := v, timestamp := ts, fifo_order := e.fifo_order }
          = fifoStep acc e from rfl]
    · simp only [replaceInBucket, if_neg hk, List.foldl_cons]
      exact foldl_fifoStep_replaceInBucket k v ts rest _

lemma foldl_buckets_set (g : (Int × Nat) → List Entry → (Int × Nat)) :
    ∀ (l : List (List Entry)) (i : Nat) (b : List Entry) (a : Int × Nat),
      (∀ acc, g acc b = g acc (l.getD i [])) →
      (l.set i b).foldl g a = l.foldl g a
  | [], _, _, _, _ => rfl
  | hd :: tl, 0, b, a, hfold => by
    simp only [List.set, List.foldl_cons]
    rw [hfold a]
    rfl
  | hd :: tl, i + 1, b, a, hfold => by
    simp only [List.set, List.foldl_cons]
    exact foldl_buckets_set g tl i b (g a hd) (fun acc => hfold acc)

lemma touchLRU_buckets (k : Int) (s : CacheState) :
    (touchLRU k s).buckets = s.buckets := by
  simp only [touchLRU]
  split <;> rfl

lemma fifoVictim_eq_of_buckets_eq (s1 s2 : CacheState) (h : s1.buckets = s2.buckets) :
    fifoVictim s1 = fifoVictim s2 := by
  unfold fifoVictim
  rw [h]

lemma foldl_replicate_nil {α : Type} (g : α → List Entry → α)
    (hg : ∀ a, g a [] = a) :
    ∀ (m : Nat) (a : α), (List.replicate m ([] : List Entry)).foldl g a = a
  | 0, _ => rfl
  | m + 1, a => by
    rw [List.replicate_succ, List.foldl_cons, hg]
    exact foldl_replicate_nil g hg m a

lemma foldl_buckets_set_replicate {α : Type} (g : α → List Entry → α)
    (hg : ∀ a, g a [] = a) :
    ∀ (n i : Nat) (b : List Entry) (a : α), i < n →
    ((List.replicate n ([] : List Entry)).set i b).foldl g a = g a b
  | 0, i, _, _, hi => absurd hi (Nat.not_lt_zero i)
  | n + 1, 0, b, a, _ => by
    rw [List.replicate_succ, List.set_cons_zero, List.foldl_cons]
    exact foldl_replicate_nil g hg n (g a b)
  | n + 1, i + 1, b, a, hi => by
    rw [List.replicate_succ, List.set_cons_succ, List.foldl_cons, hg]
    exact foldl_buckets_set_replicate g hg n i b a (Nat.lt_of_succ_lt_succ hi)

/-- The eviction loop takes one step when the state is over budget and
nonempty. -/
lemma evictIfNeeded_step (cfg : Config) (s : CacheState)
    (h : cfg.maxBytes < s.stats.bytes_estimated ∧ 0 < s.stats.size_entries) :
    evictIfNeeded cfg s = evictLoop cfg 9999 (bumpEvictions (evictOnce cfg s)) := by
  show evictLoop cfg 10000 s = _
  rw [show (10000 : Nat) = 9999 + 1 from rfl]
  rw [evictLoop, if_pos h]

lemma evictLoop_of_entries_zero (cfg : Config) (fuel : Nat) (s : CacheState)
    (h : s.stats.size_entries = 0) : evictLoop cfg fuel s = s := by
  cases fuel with
  | zero => rfl
  | succ m =>
    rw [evictLoop, if_neg]
    rintro ⟨-, h2⟩
    omega

/-- `update_or_insert` of any key into a fresh cache reaches the fresh-insert
branch and produces exactly the one-entry state `freshOne` before its
eviction loop runs. -/
lemma upsert_fresh_state (cfg : Config) (k : Int) (v : String) :
    update_or_insert cfg k v (mkCache cfg)
      = (true, evictIfNeeded cfg (freshOne cfg k v)) := by
  rw [update_or_insert_of_absent cfg k v (mkCache cfg) (by
    show findInBucket k ((List.replicate cfg.bucketCount []).getD (bucketFor cfg k) []) = none
    rw [getD_replicate_nil]
    rfl)]
  congr 2
  simp [mkCache, freshOne, getD_replicate_nil]

/-- C8: round trip on a fresh cache: for every key `k` (negative keys
included) and value `v`, on a freshly constructed cache whose byte budget
holds one entry (`entrySize + v.length ≤ maxBytes`, bucket table nonempty),
`update_or_insert(k, v)` followed immediately by `get(k)` returns `some v`. -/
theorem round_trip_get_after_upsert (cfg : Config) (k : Int) (v : String)
    (hn : 0 < cfg.bucketCount)
    (hb : cfg.entrySize + v.length ≤ cfg.maxBytes) :
    (get cfg k ((update_or_insert cfg k v (mkCache cfg)).2)).1 = some v := by
  rw [upsert_fresh_state]
  dsimp only
  rw [evictIfNeeded_of_le cfg (freshOne cfg k v) hb]
  have hfind : findInBucket k (bucketOf cfg (freshOne cfg k v) k)
      = some { key := k, value := v, timestamp := 0, fifo_order := 0 } := by
    show findInBucket k (((List.replicate cfg.bucketCount []).set (bucketFor cfg k)
        [{ key := k, value := v, timestamp := 0, fifo_order := 0 }]).getD
          (bucketFor cfg k) []) = _
    rw [getD_set_self _ _ _ (by rw [List.length_replicate]; exact Nat.mod_lt _ hn)]
    simp [findInBucket]
  rw [get_of_found cfg k _ _ hfind]

/-- Witness for C8 at a concrete input: negative key `-7`, value `"hello"`,
budget 1000. -/
theorem round_trip_get_after_upsert_witness :
    0 < (cfg4 Policy.LRU 1000).bucketCount ∧
    (cfg4 Policy.LRU 1000).entrySize + ("hello").length ≤ (cfg4 Policy.LRU 1000).maxBytes ∧
    (get (cfg4 Policy.LRU 1000) (-7)
      ((update_or_insert (cfg4 Policy.LRU 1000) (-7) "hello"
        (mkCache (cfg4 Policy.LRU 1000))).2)).1 = some "hello" :=
  ⟨by decide, by decide,
    round_trip_get_after_upsert (cfg4 Policy.LRU 1000) (-7) "hello" (by decide) (by decide)⟩

/-- C10 counterexample to the claim as stated: at key `-1` (LRU cache,
budget 1, entry overhead 64, so the entry's footprint 64 exceeds the budget)
`update_or_insert(-1, "")` on an empty cache returns true, but the
just-inserted entry is NOT evicted: `size_entries` stays 1 and `get(-1)`
still returns the value — the victim sentinel `-1` aborts every eviction of
this key. -/
theorem oversized_entry_evicted_cex :
    (update_or_insert (cfg4 Policy.LRU 1) (-1) ""
      (mkCache (cfg4 Policy.LRU 1))).1 = true ∧
    (update_or_insert (cfg4 Policy.LRU 1) (-1) ""
      (mkCache (cfg4 Policy.LRU 1))).2.stats.size_entries = 1 ∧
    (get (cfg4 Policy.LRU 1) (-1)
      (update_or_insert (cfg4 Policy.LRU 1) (-1) ""
        (mkCache (cfg4 Policy.LRU 1))).2).1 = some "" := by
  have hno : ∀ n, evictOnce (cfg4 Policy.LRU 1) (withEvictions n sNeg1)
      = withEvictions n sNeg1 := by
    intro n
    show evictLRU (cfg4 Policy.LRU 1) (withEvictions n sNeg1) = withEvictions n sNeg1
    exact evictLRU_sentinel _ _ (Or.inl rfl)
  have h2 : (update_or_insert (cfg4 Policy.LRU 1) (-1) ""
      (mkCache (cfg4 Policy.LRU 1))).2 = evictIfNeeded (cfg4 Policy.LRU 1) sNeg1 := by
    rw [update_or_insert_of_absent _ _ _ _ (by decide)]
    dsimp only
    congr 1
  have h1 : (update_or_insert (cfg4 Policy.LRU 1) (-1) ""
      (mkCache (cfg4 Policy.LRU 1))).1 = true := by
    rw [update_or_insert_of_absent _ _ _ _ (by decide)]
  refine ⟨h1, ?_, ?_⟩ <;>
    rw [h2, evictIfNeeded_stall (cfg4 Policy.LRU 1) sNeg1 hno (by decide) (by decide)] <;>
    decide

/-- C10 (amended): for every key `k` other than `-1` this works as claimed,
under every policy (LRU, FIFO, and Random for every oracle draw sequence):
if a single entry's footprint `entrySize + v.length` exceeds the byte
budget, `update_or_insert(k, v)` on a fresh cache returns true but the
just-inserted entry is immediately evicted again — afterwards
`size_entries = 0` and `get(k)` is absent. Under Random, a draw that hits
the entry's bucket erases it directly, and 32 missed draws fall back to
LRU-tail eviction, which also erases it since `k ≠ -1`. (Only for `k = -1`
does the victim sentinel abort the eviction and retain the entry, see the
counterexample.) -/
theorem oversized_entry_evicted (cfg : Config) (k : Int) (v : String)
    (hn : 0 < cfg.bucketCount)
    (hb : cfg.maxBytes < cfg.entrySize + v.length)
    (hk : k ≠ -1) :
    (update_or_insert cfg k v (mkCache cfg)).1 = true ∧
    (update_or_insert cfg k v (mkCache cfg)).2.stats.size_entries = 0 ∧
    (get cfg k ((update_or_insert cfg k v (mkCache cfg)).2)).1 = none := by
  have hlen : bucketFor cfg k < (List.replicate cfg.bucketCount ([] : List Entry)).length := by
    rw [List.length_replicate]
    exact Nat.mod_lt _ hn
  have hbucket : (freshOne cfg k v).buckets.getD (bucketFor cfg k) []
      = [{ key := k, value := v, timestamp := 0, fifo_order := 0 }] :=
    getD_set_self (List.replicate cfg.bucketCount []) (bucketFor cfg k) _ hlen
  have hfind : findInBucket k (bucketOf cfg (freshOne cfg k v) k)
      = some { key := k, value := v, timestamp := 0, fifo_order := 0 } := by
    show findInBucket k ((freshOne cfg k v).buckets.getD (bucketFor cfg k) []) = _
    rw [hbucket]
    simp [findInBucket]
  have hbucketsAll : ∀ i, (freshOne cfg k v).buckets.getD i [] = []
      ∨ (freshOne cfg k v).buckets.getD i []
        = [{ key := k, value := v, timestamp := 0, fifo_order := 0 }] := by
    intro i
    by_cases hi : bucketFor cfg k = i
    · right
      rw [← hi]
      exact hbucket
    · left
      show ((List.replicate cfg.bucketCount []).set (bucketFor cfg k)
        ([{ key := k, value := v, timestamp := 0, fifo_order := 0 }] : List Entry)).getD
          i [] = []
      rw [getD_set_ne _ _ _ _ hi, getD_replicate_nil]
  have herase : ∀ j : Nat, erase cfg k (withRngIdx j (freshOne cfg k v))
      = (true, removeEntry cfg { key := k, value := v, timestamp := 0, fifo_order := 0 }
          (withRngIdx j (freshOne cfg k v))) := by
    intro j
    exact erase_of_found cfg k (withRngIdx j (freshOne cfg k v)) _ hfind
  have hrand : ∀ (attempts j : Nat), ∃ j2,
      randAttempts cfg attempts (withRngIdx j (freshOne cfg k v))
        = removeEntry cfg { key := k, value := v, timestamp := 0, fifo_order := 0 }
            (withRngIdx j2 (freshOne cfg k v)) := by
    intro attempts
    induction attempts with
    | zero =>
      intro j
      refine ⟨j, ?_⟩
      show evictLRU cfg (withRngIdx j (freshOne cfg k v)) = _
      simp only [evictLRU]
      rw [show (match (withRngIdx j (freshOne cfg k v)).lruList.getLast? with
          | none => (-1 : Int) | some x => x) = k from rfl]
      rw [if_neg hk]
      exact congrArg Prod.snd (herase j)
    | succ n ih =>
      intro j
      rw [randAttempts]
      cases hc : (draw cfg (withRngIdx j (freshOne cfg k v)) cfg.bucketCount).2.buckets.getD
          (draw cfg (withRngIdx j (freshOne cfg k v)) cfg.bucketCount).1 [] with
      | nil =>
        simp only [hc]
        obtain ⟨j2, hj2⟩ := ih (j + 1)
        exact ⟨j2, hj2⟩
      | cons e0 rest =>
        simp only [hc]
        have hc2 : (freshOne cfg k v).buckets.getD (cfg.rng j % cfg.bucketCount) []
            = e0 :: rest := hc
        rcases hbucketsAll (cfg.rng j % cfg.bucketCount) with hnil | hone
        · rw [hc2] at hnil
          exact absurd hnil (List.cons_ne_nil e0 rest)
        · rw [hc2] at hone
          injection hone with h1 h2
          subst h1
          subst h2
          refine ⟨j + 2, ?_⟩
          rw [show (draw cfg (draw cfg (withRngIdx j (freshOne cfg k v)) cfg.bucketCount).2
              (({ key := k, value := v, timestamp := 0, fifo_order := 0 } : Entry)
                :: ([] : List Entry)).length).1 = 0 from Nat.mod_one _]
          exact congrArg Prod.snd (herase (j + 2))
  have hfinal : ∃ j2, evictOnce cfg (freshOne cfg k v)
      = removeEntry cfg { key := k, value := v, timestamp := 0, fifo_order := 0 }
          (withRngIdx j2 (freshOne cfg k v)) := by
    cases hpol : cfg.policy with
    | LRU =>
      refine ⟨0, ?_⟩
      rw [show evictOnce cfg (freshOne cfg k v) = evictLRU cfg (freshOne cfg k v) from by
        unfold evictOnce
        rw [hpol]]
      simp only [evictLRU]
      rw [show (match (freshOne cfg k v).lruList.getLast? with
          | none => (-1 : Int) | some x => x) = k from rfl]
      rw [if_neg hk]
      exact congrArg Prod.snd (herase 0)
    | FIFO =>
      refine ⟨0, ?_⟩
      rw [show evictOnce cfg (freshOne cfg k v) = evictFIFO cfg (freshOne cfg k v) from by
        unfold evictOnce
        rw [hpol]]
      have hvic : fifoVictim (freshOne cfg k v) = k := by
        unfold fifoVictim
        show (((List.replicate cfg.bucketCount []).set (bucketFor cfg k)
            [{ key := k, value := v, timestamp := 0, fifo_order := 0 }]).foldl
              (fun acc b => b.foldl fifoStep acc) ((-1 : Int), 2 ^ 64 - 1)).1 = k
        rw [foldl_buckets_set_replicate _ (fun a => rfl) cfg.bucketCount (bucketFor cfg k)
          _ _ (Nat.mod_lt _ hn)]
        show (fifoStep ((-1 : Int), 2 ^ 64 - 1)
          { key := k, value := v, timestamp := 0, fifo_order := 0 }).1 = k
        rw [show fifoStep ((-1 : Int), 2 ^ 64 - 1)
            { key := k, value := v, timestamp := 0, fifo_order := 0 } = (k, 0) from by
          unfold fifoStep
          rw [if_pos (by norm_num)]]
      simp only [evictFIFO]
      rw [hvic, if_neg hk]
      exact congrArg Prod.snd (herase 0)
    | Random =>
      obtain ⟨j2, hj2⟩ := hrand 32 0
      refine ⟨j2, ?_⟩
      rw [show evictOnce cfg (freshOne cfg k v) = evictRandom cfg (freshOne cfg k v) from by
        unfold evictOnce
        rw [hpol]]
      exact hj2
  obtain ⟨j2, hj2⟩ := hfinal
  have hstep : evictIfNeeded cfg (freshOne cfg k v)
      = bumpEvictions (removeEntry cfg { key := k, value := v, timestamp := 0, fifo_order := 0 }
          (withRngIdx j2 (freshOne cfg k v))) := by
    rw [evictIfNeeded_step cfg (freshOne cfg k v) ⟨hb, Nat.zero_lt_one⟩, hj2]
    exact evictLoop_of_entries_zero cfg 9999 _ rfl
  have hafter : bucketOf cfg
      (bumpEvictions (removeEntry cfg { key := k, value := v, timestamp := 0, fifo_order := 0 }
        (withRngIdx j2 (freshOne cfg k v)))) k = [] := by
    show ((freshOne cfg k v).buckets.set (bucketFor cfg k)
        (removeFromBucket k ((freshOne cfg k v).buckets.getD (bucketFor cfg k) []))).getD
          (bucketFor cfg k) [] = []
    rw [hbucket]
    rw [show removeFromBucket k
        [{ key := k, value := v, timestamp := 0, fifo_order := 0 }] = [] from by
      simp [removeFromBucket]]
    refine getD_set_self _ _ _ ?_
    rw [show (freshOne cfg k v).buckets.length = cfg.bucketCount from by
      simp [freshOne, List.length_set, List.length_replicate]]
    exact Nat.mod_lt _ hn
  refine ⟨?_, ?_, ?_⟩
  · rw [upsert_fresh_state]
  · rw [upsert_fresh_state]
    dsimp only
    rw [hstep]
    rfl
  · rw [upsert_fresh_state]
    dsimp only
    rw [hstep, get_of_absent cfg k _ (by rw [hafter]; rfl)]

/-- Witness for the amended C10 at a concrete input: key 5, empty value,
budget 1 < overhead 64, Random policy with the constant-zero oracle (all 32
draws hit the empty bucket 0, so the LRU fallback evicts): the entry is
inserted and immediately evicted. -/
theorem oversized_entry_evicted_witness :
    0 < (cfg4 Policy.Random 1).bucketCount ∧
    (cfg4 Policy.Random 1).maxBytes < (cfg4 Policy.Random 1).entrySize + ("").length ∧
    (5 : Int) ≠ -1 ∧
    ((update_or_insert (cfg4 Policy.Random 1) 5 "" (mkCache (cfg4 Policy.Random 1))).1 = true ∧
     (update_or_insert (cfg4 Policy.Random 1) 5 ""
        (mkCache (cfg4 Policy.Random 1))).2.stats.size_entries = 0 ∧
     (get (cfg4 Policy.Random 1) 5
        ((update_or_insert (cfg4 Policy.Random 1) 5 ""
          (mkCache (cfg4 Policy.Random 1))).2)).1 = none) :=
  ⟨by decide, by decide, by decide,
    oversized_entry_evicted (cfg4 Policy.Random 1) 5 "" (by decide) (by decide) (by decide)⟩

/-- C6 counterexample: the entry's stored time is NOT unchanged by `update`.
On an LRU cache with budget 1000, `update_or_insert(0, "a")` creates the
entry with timestamp 0 (its creation time); the subsequent `update(0, "b")`
overwrites the timestamp with the update time 1 (`it->timestamp = now()` in
the found branch of `update`), so the stored creation time is lost, while
`fifo_order` stays 0. -/
theorem update_timestamp_cex :
    (findInBucket 0 (bucketOf (cfg4 Policy.LRU 1000)
      (update_or_insert (cfg4 Policy.LRU 1000) 0 "a"
        (mkCache (cfg4 Policy.LRU 1000))).2 0)).map Entry.timestamp = some 0 ∧
    (findInBucket 0 (bucketOf (cfg4 Policy.LRU 1000)
      (update (cfg4 Policy.LRU 1000) 0 "b"
        (update_or_insert (cfg4 Policy.LRU 1000) 0 "a"
          (mkCache (cfg4 Policy.LRU 1000))).2).2 0)).map Entry.timestamp = some 1 ∧
    (findInBucket 0 (bucketOf (cfg4 Policy.LRU 1000)
      (update (cfg4 Policy.LRU 1000) 0 "b"
        (update_or_insert (cfg4 Policy.LRU 1000) 0 "a"
          (mkCache (cfg4 Policy.LRU 1000))).2).2 0)).map Entry.fifo_order = some 0 := by
  have h6a : (update_or_insert (cfg4 Policy.LRU 1000) 0 "a"
      (mkCache (cfg4 Policy.LRU 1000))).2 = s6a := by
    rw [update_or_insert_of_absent _ _ _ _ (by decide)]
    dsimp only
    rw [evictIfNeeded_of_le _ _ (by decide)]
    decide
  have h6b : (update (cfg4 Policy.LRU 1000) 0 "b" s6a).2 = s6b := by
    rw [update_of_found _ _ _ _
      { key := 0, value := "a", timestamp := 0, fifo_order := 0 } (by decide)]
    dsimp only
    rw [evictIfNeeded_of_le _ _ (by decide)]
    decide
  rw [h6a, h6b]
  refine ⟨by decide, by decide, by decide⟩

/-- C6 (amended): when `update(k, v)` is called on a key whose entry is `e`,
the call returns true and replaces the value in place: the entry becomes
`{ e with value := v, timestamp := s.clock }` — its `fifo_order`
(insertion_sequence) is unchanged, while its timestamp is overwritten with
the time of the update. Also (assuming the byte adjustment stays within
budget so the eviction loop does not run) a subsequent FIFO victim selection
is unchanged: the updated entry is still treated according to its original
insertion order. -/
theorem update_preserves_insertion_order (cfg : Config) (k : Int) (v : String)
    (s : CacheState) (e : Entry)
    (h : findInBucket k (bucketOf cfg s k) = some e)
    (hb : adjustBytesOnUpdate e.value.length v.length s.stats.bytes_estimated
      ≤ cfg.maxBytes) :
    (update cfg k v s).1 = true ∧
    findInBucket k (bucketOf cfg (update cfg k v s).2 k)
      = some { e with value := v, timestamp := s.clock } ∧
    fifoVictim (update cfg k v s).2 = fifoVictim s := by
  have hlt : bucketFor cfg k < s.buckets.length :=
    lt_length_of_findInBucket_ne_none cfg s k (by rw [h]; exact Option.some_ne_none e)
  have hle : ∀ t : CacheState, t.stats = { s.stats with
      bytes_estimated :=
        adjustBytesOnUpdate e.value.length v.length s.stats.bytes_estimated } →
      t.stats.bytes_estimated ≤ cfg.maxBytes := by
    intro t ht
    rw [ht]
    exact hb
  refine ⟨?_, ?_, ?_⟩
  · rw [update_of_found cfg k v s e h]
  · rw [update_of_found cfg k v s e h]
    dsimp only
    rw [evictIfNeeded_of_le _ _ (hle _ (touchLRU_stats k _))]
    show findInBucket k ((touchLRU k _).buckets.getD (bucketFor cfg k) []) = _
    rw [touchLRU_buckets]
    show findInBucket k ((s.buckets.set (bucketFor cfg k)
        (replaceInBucket k v s.clock (s.buckets.getD (bucketFor cfg k) []))).getD
          (bucketFor cfg k) []) = _
    rw [getD_set_self _ _ _ hlt, findInBucket_replaceInBucket,
      show findInBucket k (s.buckets.getD (bucketFor cfg k) []) = some e from h]
    rfl
  · rw [update_of_found cfg k v s e h]
    dsimp only
    rw [evictIfNeeded_of_le _ _ (hle _ (touchLRU_stats k _))]
    refine Eq.trans (fifoVictim_eq_of_buckets_eq _ _ (touchLRU_buckets k _)) ?_
    show ((s.buckets.set (bucketFor cfg k)
        (replaceInBucket k v s.clock (s.buckets.getD (bucketFor cfg k) []))).foldl
          (fun acc b => b.foldl fifoStep acc) ((-1 : Int), 2 ^ 64 - 1)).1
      = fifoVictim s
    rw [foldl_buckets_set _ s.buckets (bucketFor cfg k) _ _
      (fun acc => foldl_fifoStep_replaceInBucket k v s.clock _ acc)]
    rfl

/-- Witness for the amended C6 at a concrete input: updating key 0 from
`"a"` to `"bb"` in the one-entry state `s6a`. -/
theorem update_preserves_insertion_order_witness :
    findInBucket 0 (bucketOf (cfg4 Policy.LRU 1000) s6a 0)
      = some { key := 0, value := "a", timestamp := 0, fifo_order := 0 } ∧
    adjustBytesOnUpdate ("a").length ("bb").length s6a.stats.bytes_estimated
      ≤ (cfg4 Policy.LRU 1000).maxBytes ∧
    ((update (cfg4 Policy.LRU 1000) 0 "bb" s6a).1 = true ∧
     findInBucket 0 (bucketOf (cfg4 Policy.LRU 1000)
        (update (cfg4 Policy.LRU 1000) 0 "bb" s6a).2 0)
       = some { key := 0, value := "bb", timestamp := s6a.clock, fifo_order := 0 } ∧
     fifoVictim (update (cfg4 Policy.LRU 1000) 0 "bb" s6a).2 = fifoVictim s6a) :=
  ⟨by decide, by decide,
    update_preserves_insertion_order (cfg4 Policy.LRU 1000) 0 "bb" s6a
      { key := 0, value := "a", timestamp := 0, fifo_order := 0 } (by decide) (by decide)⟩

/- Key-level facts about the bucket scan and the bucket mutations, used for
the key-uniqueness invariant. -/

lemma findInBucket_eq_some_imp (k : Int) :
    ∀ (b : List Entry) (e : Entry), findInBucket k b = some e → e ∈ b ∧ e.key = k
  | [], e, h => by simp [findInBucket] at h
  | e0 :: rest, e, h => by
    by_cases hk : e0.key = k
    · simp only [findInBucket, if_pos hk] at h
      cases h
      exact ⟨List.mem_cons_self e0 rest, hk⟩
    · simp only [findInBucket, if_neg hk] at h
      rcases findInBucket_eq_some_imp k rest e h with ⟨h1, h2⟩
      exact ⟨List.mem_cons_of_mem e0 h1, h2⟩

lemma findInBucket_eq_none_iff (k : Int) :
    ∀ b : List Entry, findInBucket k b = none ↔ k ∉ bucketKeys b
  | [] => by simp [findInBucket, bucketKeys]
  | e :: rest => by
    by_cases hk : e.key = k
    · simp [findInBucket, bucketKeys, if_pos hk, hk]
    · simp only [findInBucket, if_neg hk, bucketKeys, List.map_cons, List.mem_cons]
      rw [findInBucket_eq_none_iff k rest]
      constructor
      · rintro h1 (h2 | h2)
        · exact hk h2.symm
        · exact h1 (by simpa [bucketKeys] using h2)
      · intro h1 h2
        exact h1 (Or.inr (by simpa [bucketKeys] using h2))

lemma mem_key_findInBucket (k : Int) :
    ∀ b : List Entry, k ∈ bucketKeys b → findInBucket k b ≠ none := by
  intro b hk hn
  exact (findInBucket_eq_none_iff k b).mp hn hk

lemma mem_replaceInBucket (k : Int) (v : String) (ts : Nat) :
    ∀ (b : List Entry) (e1 : Entry), e1 ∈ replaceInBucket k v ts b →
      ∃ e ∈ b, e1.key = e.key
  | [], e1, h => absurd h (List.not_mem_nil e1)
  | e :: rest, e1, h => by
    by_cases hk : e.key = k
    · simp only [replaceInBucket, if_pos hk, List.mem_cons] at h
      rcases h with h | h
      · exact ⟨e, List.mem_cons_self e rest, by rw [h]⟩
      · exact ⟨e1, List.mem_cons_of_mem e h, rfl⟩
    · simp only [replaceInBucket, if_neg hk, List.mem_cons] at h
      rcases h with h | h
      · exact ⟨e, List.mem_cons_self e rest, by rw [h]⟩
      · rcases mem_replaceInBucket k v ts rest e1 h with ⟨e2, h2, h3⟩
        exact ⟨e2, List.mem_cons_of_mem e h2, h3⟩

lemma bucketKeys_replaceInBucket (k : Int) (v : String) (ts : Nat) :
    ∀ b : List Entry, bucketKeys (replaceInBucket k v ts b) = bucketKeys b
  | [] => rfl
  | e :: rest => by
    by_cases hk : e.key = k
    · simp only [replaceInBucket, if_pos hk, bucketKeys, List.map_cons]
    · simp only [replaceInBucket, if_neg hk, bucketKeys, List.map_cons]
      rw [show (replaceInBucket k v ts rest).map Entry.key
          = bucketKeys (replaceInBucket k v ts rest) from rfl]
      rw [bucketKeys_replaceInBucket k v ts rest]
      rfl

lemma mem_removeFromBucket (k : Int) :
    ∀ (b : List Entry) (e1 : Entry), e1 ∈ removeFromBucket k b → e1 ∈ b
  | [], e1, h => absurd h (List.not_mem_nil e1)
  | e :: rest, e1, h => by
    by_cases hk : e.key = k
    · simp only [removeFromBucket, if_pos hk] at h
      exact List.mem_cons_of_mem e h
    · simp only [removeFromBucket, if_neg hk, List.mem_cons] at h
      rcases h with h | h
      · exact h ▸ List.mem_cons_self e rest
      · exact List.mem_cons_of_mem e (mem_removeFromBucket k rest e1 h)

lemma bucketKeys_removeFromBucket (k : Int) :
    ∀ b : List Entry, bucketKeys (removeFromBucket k b) = (bucketKeys b).erase k
  | [] => rfl
  | e :: rest => by
    by_cases hk : e.key = k
    · simp only [removeFromBucket, if_pos hk, bucketKeys, List.map_cons]
      rw [show (e.key :: rest.map Entry.key).erase k = rest.map Entry.key from by
        rw [hk]
        exact List.erase_cons_head k (rest.map Entry.key)]
    · simp only [removeFromBucket, if_neg hk, bucketKeys, List.map_cons]
      rw [List.erase_cons_tail (by simpa using hk)]
      rw [show (removeFromBucket k rest).map Entry.key
          = bucketKeys (removeFromBucket k rest) from rfl]
      rw [bucketKeys_removeFromBucket k rest]
      rfl

/- Preservation of the structural invariant `WFState` by every operation. -/

/-- `WFState` only depends on the bucket table and the recency list. -/
lemma WFState_congr (cfg : Config) (s t : CacheState)
    (hb : t.buckets = s.buckets) (hl : t.lruList = s.lruList)
    (hwf : WFState cfg s) : WFState cfg t := by
  obtain ⟨h1, h2, h3, h4, h5⟩ := hwf
  refine ⟨?_, ?_, ?_, ?_, ?_⟩
  · rw [hb]; exact h1
  · intro i e he
    rw [hb] at he
    exact h2 i e he
  · intro i
    rw [hb]
    exact h3 i
  · rw [hl]; exact h4
  · intro x
    rw [hl]
    show x ∈ s.lruList ↔ x ∈ bucketKeys (t.buckets.getD (bucketFor cfg x) [])
    rw [hb]
    exact h5 x

lemma WF_mkCache (cfg : Config) : WFState cfg (mkCache cfg) := by
  refine ⟨List.length_replicate .., ?_, ?_, List.nodup_nil, ?_⟩
  · intro i e he
    rw [show (mkCache cfg).buckets.getD i [] = [] from getD_replicate_nil ..] at he
    exact absurd he (List.not_mem_nil e)
  · intro i
    rw [show (mkCache cfg).buckets.getD i [] = [] from getD_replicate_nil ..]
    exact List.nodup_nil
  · intro k
    rw [show bucketOf cfg (mkCache cfg) k = [] from getD_replicate_nil ..]
    simp [bucketKeys, mkCache]

lemma WF_touchLRU (cfg : Config) (k : Int) (s : CacheState)
    (hwf : WFState cfg s) (hk : k ∈ s.lruList) : WFState cfg (touchLRU k s) := by
  obtain ⟨h1, h2, h3, h4, h5⟩ := hwf
  rw [touchLRU]
  split
  · exact ⟨h1, h2, h3, h4, h5⟩
  · refine ⟨h1, h2, h3, ?_, ?_⟩
    · exact List.nodup_cons.mpr ⟨h4.not_mem_erase, List.Nodup.erase k h4⟩
    · intro x
      show x ∈ k :: s.lruList.erase k ↔ x ∈ bucketKeys (bucketOf cfg s x)
      rw [List.mem_cons, h4.mem_erase_iff]
      constructor
      · rintro (rfl | ⟨-, hx⟩)
        · exact (h5 x).mp hk
        · exact (h5 x).mp hx
      · intro hx
        by_cases hxk : x = k
        · exact Or.inl hxk
        · exact Or.inr ⟨hxk, (h5 x).mpr hx⟩

lemma WF_set_insert (cfg : Config) (k : Int) (e : Entry) (s : CacheState)
    (hek : e.key = k)
    (hn : 0 < cfg.bucketCount)
    (hwf : WFState cfg s)
    (habs : findInBucket k (s.buckets.getD (bucketFor cfg k) []) = none) :
    WFState cfg { s with
      buckets := s.buckets.set (bucketFor cfg k)
        (e :: s.buckets.getD (bucketFor cfg k) [])
      lruList := k :: s.lruList } := by
  subst hek
  obtain ⟨h1, h2, h3, h4, h5⟩ := hwf
  have hbi : bucketFor cfg e.key < s.buckets.length := by
    rw [h1]
    exact Nat.mod_lt _ hn
  have hknotin : e.key ∉ bucketKeys (s.buckets.getD (bucketFor cfg e.key) []) :=
    (findInBucket_eq_none_iff e.key _).mp habs
  refine ⟨?_, ?_, ?_, ?_, ?_⟩
  · show (s.buckets.set (bucketFor cfg e.key) _).length = _
    rw [List.length_set]
    exact h1
  · intro i e1 he1
    by_cases hi : bucketFor cfg e.key = i
    · rw [← hi] at he1 ⊢
      rw [getD_set_self _ _ _ hbi] at he1
      rcases List.mem_cons.mp he1 with he1 | he1
      · rw [he1]
      · exact h2 (bucketFor cfg e.key) e1 he1
    · rw [getD_set_ne _ _ _ _ hi] at he1
      exact h2 i e1 he1
  · intro i
    by_cases hi : bucketFor cfg e.key = i
    · rw [← hi, getD_set_self _ _ _ hbi]
      show (bucketKeys (e :: s.buckets.getD (bucketFor cfg e.key) [])).Nodup
      rw [show bucketKeys (e :: s.buckets.getD (bucketFor cfg e.key) [])
          = e.key :: bucketKeys (s.buckets.getD (bucketFor cfg e.key) []) from rfl]
      exact List.nodup_cons.mpr ⟨hknotin, h3 _⟩
    · rw [getD_set_ne _ _ _ _ hi]
      exact h3 i
  · refine List.nodup_cons.mpr ⟨?_, h4⟩
    intro hkl
    exact hknotin ((h5 e.key).mp hkl)
  · intro x
    show x ∈ e.key :: s.lruList ↔ x ∈ bucketKeys
      ((s.buckets.set (bucketFor cfg e.key)
        (e :: s.buckets.getD (bucketFor cfg e.key) [])).getD (bucketFor cfg x) [])
    by_cases hx : bucketFor cfg e.key = bucketFor cfg x
    · rw [← hx, getD_set_self _ _ _ hbi]
      rw [show bucketKeys (e :: s.buckets.getD (bucketFor cfg e.key) [])
          = e.key :: bucketKeys (s.buckets.getD (bucketFor cfg e.key) []) from rfl]
      rw [List.mem_cons, List.mem_cons]
      constructor
      · rintro (rfl | hxl)
        · exact Or.inl rfl
        · right
          have hh := (h5 x).mp hxl
          rw [show bucketOf cfg s x = s.buckets.getD (bucketFor cfg x) [] from rfl] at hh
          rwa [← hx] at hh
      · rintro (rfl | hxk)
        · exact Or.inl rfl
        · right
          refine (h5 x).mpr ?_
          rw [show bucketOf cfg s x = s.buckets.getD (bucketFor cfg x) [] from rfl, ← hx]
          exact hxk
    · rw [getD_set_ne _ _ _ _ hx, List.mem_cons]
      constructor
      · rintro (rfl | hxl)
        · exact absurd rfl hx
        · exact (h5 x).mp hxl
      · intro hxk
        exact Or.inr ((h5 x).mpr hxk)

lemma WF_set_replace (cfg : Config) (k : Int) (v : String) (ts : Nat) (s : CacheState)
    (hwf : WFState cfg s) :
    WFState cfg { s with
      buckets := s.buckets.set (bucketFor cfg k)
        (replaceInBucket k v ts (s.buckets.getD (bucketFor cfg k) [])) } := by
  obtain ⟨h1, h2, h3, h4, h5⟩ := hwf
  refine ⟨?_, ?_, ?_, h4, ?_⟩
  · show (s.buckets.set (bucketFor cfg k) _).length = _
    rw [List.length_set]
    exact h1
  · intro i e1 he1
    by_cases hi : bucketFor cfg k = i
    · by_cases hbi : bucketFor cfg k < s.buckets.length
      · rw [← hi] at he1 ⊢
        rw [getD_set_self _ _ _ hbi] at he1
        rcases mem_replaceInBucket k v ts _ e1 he1 with ⟨e2, he2, hkey⟩
        rw [show bucketFor cfg e1.key = bucketFor cfg e2.key from by rw [hkey]]
        exact h2 (bucketFor cfg k) e2 he2
      · rw [List.set_eq_of_length_le (Nat.le_of_not_lt hbi)] at he1
        exact h2 i e1 he1
    · rw [getD_set_ne _ _ _ _ hi] at he1
      exact h2 i e1 he1
  · intro i
    by_cases hi : bucketFor cfg k = i
    · by_cases hbi : bucketFor cfg k < s.buckets.length
      · rw [← hi, getD_set_self _ _ _ hbi, bucketKeys_replaceInBucket]
        exact h3 _
      · rw [List.set_eq_of_length_le (Nat.le_of_not_lt hbi)]
        exact h3 i
    · rw [getD_set_ne _ _ _ _ hi]
      exact h3 i
  · intro x
    show x ∈ s.lruList ↔ x ∈ bucketKeys
      ((s.buckets.set (bucketFor cfg k)
        (replaceInBucket k v ts (s.buckets.getD (bucketFor cfg k) []))).getD
          (bucketFor cfg x) [])
    have h5x := h5 x
    rw [show bucketOf cfg s x = s.buckets.getD (bucketFor cfg x) [] from rfl] at h5x
    by_cases hx : bucketFor cfg k = bucketFor cfg x
    · by_cases hbi : bucketFor cfg k < s.buckets.length
      · rw [← hx, getD_set_self _ _ _ hbi, bucketKeys_replaceInBucket]
        rw [← hx] at h5x
        exact h5x
      · rw [List.set_eq_of_length_le (Nat.le_of_not_lt hbi)]
        exact h5x
    · rw [getD_set_ne _ _ _ _ hx]
      exact h5x

lemma WF_set_remove (cfg : Config) (k : Int) (s : CacheState)
    (hwf : WFState cfg s) :
    WFState cfg { s with
      buckets := s.buckets.set (bucketFor cfg k)
        (removeFromBucket k (s.buckets.getD (bucketFor cfg k) []))
      lruList := s.lruList.erase k } := by
  obtain ⟨h1, h2, h3, h4, h5⟩ := hwf
  refine ⟨?_, ?_, ?_, List.Nodup.erase k h4, ?_⟩
  · show (s.buckets.set (bucketFor cfg k) _).length = _
    rw [List.length_set]
    exact h1
  · intro i e1 he1
    by_cases hi : bucketFor cfg k = i
    · by_cases hbi : bucketFor cfg k < s.buckets.length
      · rw [← hi] at he1 ⊢
        rw [getD_set_self _ _ _ hbi] at he1
        exact h2 (bucketFor cfg k) e1 (mem_removeFromBucket k _ e1 he1)
      · rw [List.set_eq_of_length_le (Nat.le_of_not_lt hbi)] at he1
        exact h2 i e1 he1
    · rw [getD_set_ne _ _ _ _ hi] at he1
      exact h2 i e1 he1
  · intro i
    by_cases hi : bucketFor cfg k = i
    · by_cases hbi : bucketFor cfg k < s.buckets.length
      · rw [← hi, getD_set_self _ _ _ hbi, bucketKeys_removeFromBucket]
        exact List.Nodup.erase k (h3 _)
      · rw [List.set_eq_of_length_le (Nat.le_of_not_lt hbi)]
        exact h3 i
    · rw [getD_set_ne _ _ _ _ hi]
      exact h3 i
  · intro x
    show x ∈ s.lruList.erase k ↔ x ∈ bucketKeys
      ((s.buckets.set (bucketFor cfg k)
        (removeFromBucket k (s.buckets.getD (bucketFor cfg k) []))).getD
          (bucketFor cfg x) [])
    rw [h4.mem_erase_iff]
    have h5x := h5 x
    rw [show bucketOf cfg s x = s.buckets.getD (bucketFor cfg x) [] from rfl] at h5x
    by_cases hx : bucketFor cfg k = bucketFor cfg x
    · by_cases hbi : bucketFor cfg k < s.buckets.length
      · rw [← hx, getD_set_self _ _ _ hbi, bucketKeys_removeFromBucket]
        rw [(h3 (bucketFor cfg k)).mem_erase_iff]
        rw [← hx] at h5x
        rw [h5x]
      · rw [List.set_eq_of_length_le (Nat.le_of_not_lt hbi)]
        constructor
        · rintro ⟨-, hx2⟩
          exact h5x.mp hx2
        · intro hx2
          refine ⟨?_, h5x.mpr hx2⟩
          intro hxe
          subst hxe
          apply hbi
          rw [hx]
          by_contra hge
          rw [List.getD_eq_getElem?_getD,
            List.getElem?_eq_none (Nat.le_of_not_lt (fun hc => hge hc))] at hx2
          simp [bucketKeys] at hx2
    · rw [getD_set_ne _ _ _ _ hx]
      constructor
      · rintro ⟨-, hx2⟩
        exact h5x.mp hx2
      · intro hx2
        refine ⟨?_, h5x.mpr hx2⟩
        intro hxe
        subst hxe
        exact hx rfl

lemma WF_erase (cfg : Config) (k : Int) (s : CacheState) (hwf : WFState cfg s) :
    WFState cfg (erase cfg k s).2 := by
  cases hf : findInBucket k (bucketOf cfg s k) with
  | none =>
    rw [erase_of_absent cfg k s hf]
    exact hwf
  | some e =>
    rw [erase_of_found cfg k s e hf]
    dsimp only
    obtain ⟨he, hek⟩ := findInBucket_eq_some_imp k _ e hf
    subst hek
    exact WFState_congr cfg _ _ rfl rfl (WF_set_remove cfg e.key s hwf)

lemma WF_evictLRU (cfg : Config) (s : CacheState) (hwf : WFState cfg s) :
    WFState cfg (evictLRU cfg s) := by
  simp only [evictLRU]
  split
  · exact hwf
  · exact WF_erase cfg _ s hwf

lemma WF_evictFIFO (cfg : Config) (s : CacheState) (hwf : WFState cfg s) :
    WFState cfg (evictFIFO cfg s) := by
  simp only [evictFIFO]
  split
  · exact hwf
  · exact WF_erase cfg _ s hwf

lemma WF_randAttempts (cfg : Config) :
    ∀ (attempts : Nat) (s : CacheState), WFState cfg s →
      WFState cfg (randAttempts cfg attempts s)
  | 0, s, hwf => WF_evictLRU cfg s hwf
  | attempts + 1, s, hwf => by
    rw [randAttempts]
    cases hb : (draw cfg s cfg.bucketCount).2.buckets.getD
        (draw cfg s cfg.bucketCount).1 [] with
    | nil =>
      simp only [hb]
      exact WF_randAttempts cfg attempts _ (WFState_congr cfg s _ rfl rfl hwf)
    | cons e0 rest =>
      simp only [hb]
      cases hq : (e0 :: rest)[(draw cfg (draw cfg s cfg.bucketCount).2
          (e0 :: rest).length).1]? with
      | none =>
        simp only [hq]
        exact WFState_congr cfg s _ rfl rfl hwf
      | some e =>
        simp only [hq]
        exact WF_erase cfg e.key _ (WFState_congr cfg s _ rfl rfl hwf)

lemma WF_evictOnce (cfg : Config) (s : CacheState) (hwf : WFState cfg s) :
    WFState cfg (evictOnce cfg s) := by
  unfold evictOnce
  cases cfg.policy with
  | LRU => exact WF_evictLRU cfg s hwf
  | FIFO => exact WF_evictFIFO cfg s hwf
  | Random => exact WF_randAttempts cfg 32 s hwf

lemma WF_evictLoop (cfg : Config) :
    ∀ (fuel : Nat) (s : CacheState), WFState cfg s →
      WFState cfg (evictLoop cfg fuel s)
  | 0, _, hwf => hwf
  | fuel + 1, s, hwf => by
    rw [evictLoop]
    split
    · exact WF_evictLoop cfg fuel _
        (WFState_congr cfg (evictOnce cfg s) _ rfl rfl (WF_evictOnce cfg s hwf))
    · exact hwf

lemma WF_evictIfNeeded (cfg : Config) (s : CacheState) (hwf : WFState cfg s) :
    WFState cfg (evictIfNeeded cfg s) :=
  WF_evictLoop cfg 10000 s hwf

lemma mem_lru_of_found (cfg : Config) (k : Int) (s : CacheState) (e : Entry)
    (hwf : WFState cfg s)
    (hf : findInBucket k (s.buckets.getD (bucketFor cfg k) []) = some e) :
    k ∈ s.lruList := by
  obtain ⟨-, -, -, -, h5⟩ := hwf
  obtain ⟨he, hek⟩ := findInBucket_eq_some_imp k _ e hf
  exact (h5 k).mpr (List.mem_map.mpr ⟨e, he, hek⟩)

lemma WF_get (cfg : Config) (k : Int) (s : CacheState) (hwf : WFState cfg s) :
    WFState cfg (get cfg k s).2 := by
  cases hf : findInBucket k (bucketOf cfg s k) with
  | some e =>
    rw [get_of_found cfg k s e hf]
    refine WF_touchLRU cfg k _ (WFState_congr cfg s _ rfl rfl hwf) ?_
    show k ∈ s.lruList
    exact mem_lru_of_found cfg k s e hwf hf
  | none =>
    rw [get_of_absent cfg k s hf]
    exact WFState_congr cfg s _ rfl rfl hwf

lemma WF_update_or_insert (cfg : Config) (k : Int) (v : String) (s : CacheState)
    (hn : 0 < cfg.bucketCount) (hwf : WFState cfg s) :
    WFState cfg (update_or_insert cfg k v s).2 := by
  cases hf : findInBucket k (s.buckets.getD (bucketFor cfg k) []) with
  | some e =>
    rw [update_or_insert_of_found cfg k v s e hf]
    dsimp only
    refine WF_evictIfNeeded cfg _ (WF_touchLRU cfg k _ ?_ ?_)
    · exact WFState_congr cfg _ _ rfl rfl (WF_set_replace cfg k v s.clock s hwf)
    · show k ∈ s.lruList
      exact mem_lru_of_found cfg k s e hwf hf
  | none =>
    rw [update_or_insert_of_absent cfg k v s hf]
    dsimp only
    refine WF_evictIfNeeded cfg _ ?_
    exact WFState_congr cfg _ _ rfl rfl
      (WF_set_insert cfg k
        { key := k, value := v, timestamp := s.clock, fifo_order := s.fifoCounter }
        s rfl hn hwf hf)

lemma WF_insert_if_absent (cfg : Config) (k : Int) (v : String) (s : CacheState)
    (hn : 0 < cfg.bucketCount) (hwf : WFState cfg s) :
    WFState cfg (insert_if_absent cfg k v s).2 := by
  cases hf : findInBucket k (s.buckets.getD (bucketFor cfg k) []) with
  | some e =>
    rw [insert_if_absent_of_found cfg k v s e hf]
    dsimp only
    exact WF_touchLRU cfg k s hwf (mem_lru_of_found cfg k s e hwf hf)
  | none =>
    rw [insert_if_absent_of_absent cfg k v s hf]
    dsimp only
    refine WF_evictIfNeeded cfg _ ?_
    exact WFState_congr cfg _ _ rfl rfl
      (WF_set_insert cfg k
        { key := k, value := v, timestamp := s.clock, fifo_order := s.fifoCounter }
        s rfl hn hwf hf)

lemma WF_update (cfg : Config) (k : Int) (v : String) (s : CacheState)
    (hwf : WFState cfg s) :
    WFState cfg (update cfg k v s).2 := by
  cases hf : findInBucket k (s.buckets.getD (bucketFor cfg k) []) with
  | some e =>
    rw [update_of_found cfg k v s e hf]
    dsimp only
    refine WF_evictIfNeeded cfg _ (WF_touchLRU cfg k _ ?_ ?_)
    · exact WFState_congr cfg _ _ rfl rfl (WF_set_replace cfg k v s.clock s hwf)
    · show k ∈ s.lruList
      exact mem_lru_of_found cfg k s e hwf hf
  | none =>
    rw [update_of_absent cfg k v s hf]
    exact hwf

lemma WF_applyOp (cfg : Config) (s : CacheState) (op : Op)
    (hn : 0 < cfg.bucketCount) (hwf : WFState cfg s) :
    WFState cfg (applyOp cfg s op) := by
  cases op with
  | opGet k => exact WF_get cfg k s hwf
  | opUpdateOrInsert k v => exact WF_update_or_insert cfg k v s hn hwf
  | opInsertIfAbsent k v => exact WF_insert_if_absent cfg k v s hn hwf
  | opUpdate k v => exact WF_update cfg k v s hwf
  | opErase k => exact WF_erase cfg k s hwf

lemma WF_runOps (cfg : Config) (hn : 0 < cfg.bucketCount) :
    ∀ (ops : List Op) (s : CacheState), WFState cfg s →
      WFState cfg (runOps cfg ops s)
  | [], _, hwf => hwf
  | op :: rest, s, hwf =>
    WF_runOps cfg hn rest (applyOp cfg s op) (WF_applyOp cfg s op hn hwf)

/-- C9: key uniqueness. For every configuration with a nonempty bucket
table, every sequence of single-threaded calls on a fresh cache, and every
key `k`: any bucket that contains `k` is the bucket `bucketFor` computes
from `k` (a pure, deterministic function of the key, defined for negative
keys via the unsigned cast) — so `k` is stored in at most one shard — `k`
occurs at most once in that bucket, and `k` occurs at most once in the
recency index. -/
theorem key_uniqueness (cfg : Config) (ops : List Op) (k : Int)
    (hn : 0 < cfg.bucketCount) :
    KeyUnique cfg k (runOps cfg ops (mkCache cfg)) := by
  obtain ⟨h1, h2, h3, h4, h5⟩ := WF_runOps cfg hn ops (mkCache cfg) (WF_mkCache cfg)
  refine ⟨?_, ?_, ?_⟩
  · intro i hi hk
    rcases List.mem_map.mp hk with ⟨e, he, hek⟩
    have := h2 i e he
    rw [hek] at this
    exact this.symm
  · exact List.nodup_iff_count_le_one.mp (h3 (bucketFor cfg k)) k
  · exact List.nodup_iff_count_le_one.mp h4 k

/-- Witness for C9 at a concrete input: a mixed sequence of calls (inserts,
get, update, erase, reinsert, over-budget eviction) on a 4-bucket LRU cache,
checked for key 1. -/
theorem key_uniqueness_witness :
    0 < (cfg4 Policy.LRU 200).bucketCount ∧
    KeyUnique (cfg4 Policy.LRU 200) 1
      (runOps (cfg4 Policy.LRU 200)
        [Op.opUpdateOrInsert 1 "a", Op.opInsertIfAbsent 5 "b", Op.opGet 1,
         Op.opUpdate 1 "cc", Op.opErase 5, Op.opUpdateOrInsert (-3) "d",
         Op.opUpdateOrInsert 9 "e"]
        (mkCache (cfg4 Policy.LRU 200))) :=
  ⟨by decide,
    key_uniqueness (cfg4 Policy.LRU 200)
      [Op.opUpdateOrInsert 1 "a", Op.opInsertIfAbsent 5 "b", Op.opGet 1,
       Op.opUpdate 1 "cc", Op.opErase 5, Op.opUpdateOrInsert (-3) "d",
       Op.opUpdateOrInsert 9 "e"] 1 (by decide)⟩

end InlineCache
